import Mathlib

/-! # chart-vendor: fetch / lock / patch orchestration

A shallow embedding of `internal/helm/helm.go`, `internal/chart_vendor/chart_vendor.go`
and the check mode of `main.go`.

Conventions of the embedding

* The file system is the tree below the charts root (the `path` argument of
  `chart_vendor.FetchChart`).  A location is a list of entry names relative to that
  root; the strings the program formats with `fmt.Sprintf` are kept next to it and
  are what errors and `Patch` invocations record.  Chart names, directory names and
  versions are taken to be single path components without glob characters.
* The `os` primitives follow the Go standard library on Linux, without spurious
  I/O faults: `RemoveAll` of a missing path succeeds, `Rename` refuses an existing
  directory as target (`os.Rename` checks it before the system call and reports
  `EEXIST`), `Remove` refuses a non-empty directory.
* The collaborators outside the repository (chart repository, downloader, archive
  expansion, review system, the `filterdiff` and `patch` processes, the YAML encoder)
  are fields of `Ext`; their results are arbitrary.
* Goroutines of an `errgroup` are run one after the other in declaration order, all
  of them to completion, and the first error in that order is returned.
-/

namespace ChartVendor

/-! ## Errors -/

/-- The `syscall.Errno` values the modelled primitives can produce. -/
inductive Errno where
  | ENOENT
  | EEXIST
  | ENOTEMPTY
  | ENOTDIR
  | EISDIR
  | EINVAL
deriving DecidableEq, Repr

/-- Go `error` values: `*fs.PathError`, `*os.LinkError`, `*exec.ExitError`, a plain
message (`fmt.Errorf`, or whatever a collaborator reports) and `errors.Join`. -/
inductive Error where
  | path (op name : String) (errno : Errno)
  | link (op old new : String) (errno : Errno)
  | exit (status : Nat)
  | text (msg : String)
  | join (a b : Error)
deriving DecidableEq, Repr

/-- The test `errors.Is(err, os.ErrNotExist)`. -/
def Error.isNotExist : Error → Bool
  | .path _ _ e => e == .ENOENT
  | .link _ _ _ e => e == .ENOENT
  | .exit _ => false
  | .text _ => false
  | .join a b => a.isNotExist || b.isNotExist

/-- The messages joined to an error with `errors.Join`. -/
def Error.annotations : Error → List String
  | .join a b => a.annotations ++ b.annotations
  | .text m => [m]
  | _ => []

/-! ## File system -/

/-- A file-system object: a regular file with its bytes, or a directory with its
entries. -/
inductive Node where
  | file (data : String)
  | dir (entries : List (String × Node))
deriving Repr

/-- The entries of a directory. -/
abbrev Dir := List (String × Node)

/-- A location below the charts root. -/
abbrev Path := List String

mutual
/-- Equality of file-system objects is decidable. -/
def Node.decEq : (a b : Node) → Decidable (a = b)
  | .file a, .file b =>
    if h : a = b then isTrue (by rw [h]) else isFalse (fun h' => h (Node.file.inj h'))
  | .dir xs, .dir ys =>
    match Node.decEqEntries xs ys with
    | isTrue h => isTrue (by rw [h])
    | isFalse h => isFalse (fun h' => h (Node.dir.inj h'))
  | .file _, .dir _ => isFalse (fun h => Node.noConfusion h)
  | .dir _, .file _ => isFalse (fun h => Node.noConfusion h)
/-- Equality of entry lists is decidable. -/
def Node.decEqEntries : (a b : List (String × Node)) → Decidable (a = b)
  | [], [] => isTrue rfl
  | [], _ :: _ => isFalse (fun h => List.noConfusion h)
  | _ :: _, [] => isFalse (fun h => List.noConfusion h)
  | (a, x) :: xs, (b, y) :: ys =>
    if hk : a = b then
      match Node.decEq x y with
      | isTrue hn =>
        match Node.decEqEntries xs ys with
        | isTrue ht => isTrue (by rw [hk, hn, ht])
        | isFalse ht => isFalse (fun h => ht (List.cons.inj h).2)
      | isFalse hn => isFalse (fun h => hn (Prod.mk.inj (List.cons.inj h).1).2)
    else isFalse (fun h => hk (Prod.mk.inj (List.cons.inj h).1).1)
end

instance : DecidableEq Node := Node.decEq

/-- The entry called `n`, if there is one. -/
def Dir.find : Dir → String → Option Node
  | [], _ => none
  | (k, v) :: rest, n => if k = n then some v else Dir.find rest n

/-- The directory without its entry `n`. -/
def Dir.del : Dir → String → Dir
  | [], _ => []
  | (k, v) :: rest, n => if k = n then Dir.del rest n else (k, v) :: Dir.del rest n

/-- The directory with entry `n` set to `v`. -/
def Dir.put (d : Dir) (n : String) (v : Node) : Dir :=
  (n, v) :: d.del n

/-- The directory with entry `n` set to `v`, or removed when `v` is `none`. -/
def Dir.assign (d : Dir) (n : String) : Option Node → Dir
  | some v => d.put n v
  | none => d.del n

/-- The object at a location. -/
def Dir.get (d : Dir) : Path → Option Node
  | [] => some (.dir d)
  | n :: rest =>
    match d.find n with
    | none => none
    | some v =>
      match rest with
      | [] => some v
      | _ :: _ =>
        match v with
        | .dir sub => Dir.get sub rest
        | .file _ => none

/-- Run `f` on the directory at location `p` and store its result there.  Fails when
`p` is not an existing directory. -/
def Dir.within (d : Dir) : Path → (Dir → Except Errno Dir) → Except Errno Dir
  | [], f => f d
  | n :: rest, f =>
    match d.find n with
    | some (.dir sub) =>
      match Dir.within sub rest f with
      | .ok sub' => .ok (d.put n (.dir sub'))
      | .error e => .error e
    | some (.file _) => .error .ENOTDIR
    | none => .error .ENOENT

/-- The tree with the object at a location replaced (removed, for `none`); nothing
changes when the location has no parent directory. -/
def Dir.store (d : Dir) : Path → Option Node → Dir
  | [], _ => d
  | n :: rest, v =>
    match rest with
    | [] => d.assign n v
    | _ :: _ =>
      match d.find n with
      | some (.dir sub) => d.put n (.dir (Dir.store sub rest v))
      | _ => d

/-! ### The `os` primitives, inside one directory -/

/-- What `rename(2)`, as wrapped by `os.Rename`, does to the directory holding both
names.  Go first refuses a target that is a directory (reporting the source's own
error when the source is missing). -/
def renameIn (d : Dir) (old new : String) : Except Errno Dir :=
  match d.find new with
  | some (.dir _) =>
    match d.find old with
    | none => .error .ENOENT
    | some _ => .error .EEXIST
  | some (.file _) =>
    match d.find old with
    | none => .error .ENOENT
    | some (.dir _) => .error .ENOTDIR
    | some (.file x) => if old = new then .ok d else .ok ((d.del old).put new (.file x))
  | none =>
    match d.find old with
    | none => .error .ENOENT
    | some v => .ok ((d.del old).put new v)

/-- What `os.Remove` does to the directory holding the name. -/
def removeIn (d : Dir) (n : String) : Except Errno Dir :=
  match d.find n with
  | none => .error .ENOENT
  | some (.dir (_ :: _)) => .error .ENOTEMPTY
  | some _ => .ok (d.del n)

/-- What `os.WriteFile` does to the directory holding the name. -/
def writeFileIn (d : Dir) (n : String) (data : String) : Except Errno Dir :=
  match d.find n with
  | some (.dir _) => .error .EISDIR
  | _ => .ok (d.put n (.file data))

/-! ### The `os` primitives, at a location -/

/-- A directory named by the program: the string it formats and the location that
string denotes below the charts root. -/
structure Loc where
  text : String
  rel : Path
deriving DecidableEq, Repr

/-- The directory `fmt.Sprintf("%s/%s", l, n)`. -/
def Loc.sub (l : Loc) (n : String) : Loc :=
  ⟨l.text ++ "/" ++ n, l.rel ++ [n]⟩

/-- `os.RemoveAll(dir/n)`: a missing path is not an error. -/
def osRemoveAll (fs : Dir) (dir : Loc) (n : String) : Option Error × Dir :=
  match fs.within dir.rel (fun d => .ok (d.del n)) with
  | .ok fs' => (none, fs')
  | .error _ => (none, fs)

/-- `os.Rename(dir/old, dir/new)`. -/
def osRename (fs : Dir) (dir : Loc) (old new : String) : Option Error × Dir :=
  match fs.within dir.rel (fun d => renameIn d old new) with
  | .ok fs' => (none, fs')
  | .error e =>
    (some (.link "rename" (dir.text ++ "/" ++ old) (dir.text ++ "/" ++ new) e), fs)

/-- `os.Remove(dir/n)`. -/
def osRemove (fs : Dir) (dir : Loc) (n : String) : Option Error × Dir :=
  match fs.within dir.rel (fun d => removeIn d n) with
  | .ok fs' => (none, fs')
  | .error e => (some (.path "remove" (dir.text ++ "/" ++ n) e), fs)

/-- `os.WriteFile(dir/n, data, 0644)`. -/
def osWriteFile (fs : Dir) (dir : Loc) (n data : String) : Option Error × Dir :=
  match fs.within dir.rel (fun d => writeFileIn d n data) with
  | .ok fs' => (none, fs')
  | .error e => (some (.path "open" (dir.text ++ "/" ++ n) e), fs)

/-- `os.ReadFile(dir/n)`. -/
def osReadFile (fs : Dir) (dir : Loc) (n : String) : Except Error String :=
  match fs.get (dir.rel ++ [n]) with
  | some (.file data) => .ok data
  | some (.dir _) => .error (.path "read" (dir.text ++ "/" ++ n) .EISDIR)
  | none => .error (.path "open" (dir.text ++ "/" ++ n) .ENOENT)

/-! ## Data model (`internal/config`, and `chart.Dependency`, `chart.Lock` of Helm) -/

/-- Helm's `chart.Dependency`.  The elements of `ImportValues`, arbitrary decoded
values in Go, are carried by their JSON encoding. -/
structure Dependency where
  Name : String
  Version : String
  Repository : String
  Condition : String
  Tags : List String
  Enabled : Bool
  ImportValues : List String
  Alias : String
deriving DecidableEq, Repr

/-- A Go instant, as the number of nanoseconds after the zero value `time.Time{}`. -/
abbrev Time := Nat

/-- Helm's `chart.Lock`.  A Go slice is `none` when it is `nil`. -/
structure Lock where
  Generated : Time
  Dependencies : Option (List Dependency)
  Digest : String
deriving DecidableEq, Repr

/-- The type `config.ChartRepository`. -/
structure ChartRepository where
  URL : String
deriving DecidableEq, Repr

/-- The type `config.ChartPatches`.  The map from review-system host to its change
identifiers is listed in the order in which the run iterates over it. -/
structure ChartPatches where
  Gerrit : List (String × List String)
deriving DecidableEq, Repr

/-- The type `config.Chart`. -/
structure Chart where
  Name : String
  Version : String
  Repository : ChartRepository
  Directory : Option String
  Dependencies : Option (List Dependency)
  Patches : ChartPatches
deriving DecidableEq, Repr

/-! ## `encoding/json` on dependency lists -/

/-- A lower-case hexadecimal digit. -/
def hexDigit (n : Nat) : Char :=
  "0123456789abcdef".data.getD (n % 16) '0'

/-- How `encoding/json` (Go 1.22 and later) writes one character of a string, HTML
escaping included. -/
def jsonEscape (c : Char) : List Char :=
  if c = '"' then ['\\', '"']
  else if c = '\\' then ['\\', '\\']
  else if c = '\x08' then ['\\', 'b']
  else if c = '\x0c' then ['\\', 'f']
  else if c = '\n' then ['\\', 'n']
  else if c = '\r' then ['\\', 'r']
  else if c = '\t' then ['\\', 't']
  else if c.toNat < 32 ∨ c = '<' ∨ c = '>' ∨ c = '&' then
    ['\\', 'u', '0', '0', hexDigit (c.toNat / 16), hexDigit c.toNat]
  else if c = '\u2028' then ['\\', 'u', '2', '0', '2', '8']
  else if c = '\u2029' then ['\\', 'u', '2', '0', '2', '9']
  else [c]

/-- A JSON string literal. -/
def jsonString (s : String) : List Char :=
  '"' :: (s.data.flatMap jsonEscape ++ ['"'])

/-- The elements of a JSON array or object, separated by commas. -/
def commaSep : List (List Char) → List Char
  | [] => []
  | [x] => x
  | x :: y :: rest => x ++ ',' :: commaSep (y :: rest)

/-- A JSON array of already encoded elements. -/
def jsonArray (xs : List (List Char)) : List Char :=
  '[' :: (commaSep xs ++ [']'])

/-- A member `,"key":value` that is not the first of its object. -/
def jsonMember (key : String) (value : List Char) : List Char :=
  ',' :: (jsonString key ++ ':' :: value)

/-- The JSON object of a `chart.Dependency`, fields in declaration order, the ones
tagged `omitempty` left out when empty. -/
def jsonDependency (d : Dependency) : List Char :=
  '{' :: (jsonString "name" ++ ':' :: jsonString d.Name
    ++ (if d.Version = "" then [] else jsonMember "version" (jsonString d.Version))
    ++ jsonMember "repository" (jsonString d.Repository)
    ++ (if d.Condition = "" then [] else jsonMember "condition" (jsonString d.Condition))
    ++ (if d.Tags = [] then [] else jsonMember "tags" (jsonArray (d.Tags.map jsonString)))
    ++ (if d.Enabled then jsonMember "enabled" "true".data else [])
    ++ (if d.ImportValues = [] then []
        else jsonMember "import-values" (jsonArray (d.ImportValues.map String.data)))
    ++ (if d.Alias = "" then [] else jsonMember "alias" (jsonString d.Alias))
    ++ ['}'])

/-- The JSON of a `[]*chart.Dependency`: `null` for the nil slice. -/
def jsonDependencies : Option (List Dependency) → List Char
  | none => "null".data
  | some ds => jsonArray (ds.map jsonDependency)

/-- The call `json.Marshal([2][]*chart.Dependency{a, b})`. -/
def jsonMarshalPair (a b : Option (List Dependency)) : String :=
  String.mk (jsonArray [jsonDependencies a, jsonDependencies b])

/-! ## SHA-256 (`provenance.Digest`) -/

/-- The eight 32-bit words of a SHA-256 hash value. -/
structure Sha256State where
  a : Nat
  b : Nat
  c : Nat
  d : Nat
  e : Nat
  f : Nat
  g : Nat
  h : Nat
deriving DecidableEq, Repr

/-- The modulus of 32-bit arithmetic. -/
def w32 : Nat := 4294967296

/-- Rotation of a 32-bit word to the right. -/
def rotr (x n : Nat) : Nat :=
  ((x >>> n) ||| (x <<< (32 - n))) % w32

/-- The round constants. -/
def sha256K : List Nat := [
  0x428a2f98, 0x71374491, 0xb5c0fbcf, 0xe9b5dba5, 0x3956c25b, 0x59f111f1, 0x923f82a4, 0xab1c5ed5,
  0xd807aa98, 0x12835b01, 0x243185be, 0x550c7dc3, 0x72be5d74, 0x80deb1fe, 0x9bdc06a7, 0xc19bf174,
  0xe49b69c1, 0xefbe4786, 0x0fc19dc6, 0x240ca1cc, 0x2de92c6f, 0x4a7484aa, 0x5cb0a9dc, 0x76f988da,
  0x983e5152, 0xa831c66d, 0xb00327c8, 0xbf597fc7, 0xc6e00bf3, 0xd5a79147, 0x06ca6351, 0x14292967,
  0x27b70a85, 0x2e1b2138, 0x4d2c6dfc, 0x53380d13, 0x650a7354, 0x766a0abb, 0x81c2c92e, 0x92722c85,
  0xa2bfe8a1, 0xa81a664b, 0xc24b8b70, 0xc76c51a3, 0xd192e819, 0xd6990624, 0xf40e3585, 0x106aa070,
  0x19a4c116, 0x1e376c08, 0x2748774c, 0x34b0bcb5, 0x391c0cb3, 0x4ed8aa4a, 0x5b9cca4f, 0x682e6ff3,
  0x748f82ee, 0x78a5636f, 0x84c87814, 0x8cc70208, 0x90befffa, 0xa4506ceb, 0xbef9a3f7, 0xc67178f2]

/-- The initial hash value. -/
def sha256Init : Sha256State :=
  ⟨0x6a09e667, 0xbb67ae85, 0x3c6ef372, 0xa54ff53a, 0x510e527f, 0x9b05688c, 0x1f83d9ab, 0x5be0cd19⟩

/-- The message followed by the byte `0x80`, zero bytes up to 56 modulo 64, and the
bit length as a 64-bit big-endian number. -/
def sha256Pad (msg : List Nat) : List Nat :=
  let n := msg.length
  let zeros := (55 + 64 - n % 64) % 64
  let bits := 8 * n
  msg ++ [0x80] ++ List.replicate zeros 0 ++
    (List.range 8).map (fun i => (bits >>> (8 * (7 - i))) % 256)

/-- The sixteen big-endian words of a 64-byte block. -/
def blockWords (block : List Nat) : List Nat :=
  (List.range 16).map fun i =>
    block.getD (4 * i) 0 * 16777216 + block.getD (4 * i + 1) 0 * 65536 +
      block.getD (4 * i + 2) 0 * 256 + block.getD (4 * i + 3) 0

/-- The 64-word message schedule of a block. -/
def schedule (block : List Nat) : List Nat :=
  (List.range 48).foldl (fun w _ =>
    let t := w.length
    let x15 := w.getD (t - 15) 0
    let x2 := w.getD (t - 2) 0
    let s0 := rotr x15 7 ^^^ rotr x15 18 ^^^ (x15 >>> 3)
    let s1 := rotr x2 17 ^^^ rotr x2 19 ^^^ (x2 >>> 10)
    w ++ [(w.getD (t - 16) 0 + s0 + w.getD (t - 7) 0 + s1) % w32]) (blockWords block)

/-- One round of the compression function, on a round constant and a schedule word. -/
def sha256Round (s : Sha256State) (kw : Nat × Nat) : Sha256State :=
  let S1 := rotr s.e 6 ^^^ rotr s.e 11 ^^^ rotr s.e 25
  let ch := (s.e &&& s.f) ^^^ ((s.e ^^^ (w32 - 1)) &&& s.g)
  let t1 := (s.h + S1 + ch + kw.1 + kw.2) % w32
  let S0 := rotr s.a 2 ^^^ rotr s.a 13 ^^^ rotr s.a 22
  let maj := (s.a &&& s.b) ^^^ (s.a &&& s.c) ^^^ (s.b &&& s.c)
  let t2 := (S0 + maj) % w32
  ⟨(t1 + t2) % w32, s.a, s.b, s.c, (s.d + t1) % w32, s.e, s.f, s.g⟩

/-- The compression of one block into the running hash value. -/
def sha256Block (s : Sha256State) (block : List Nat) : Sha256State :=
  let r := (sha256K.zip (schedule block)).foldl sha256Round s
  ⟨(s.a + r.a) % w32, (s.b + r.b) % w32, (s.c + r.c) % w32, (s.d + r.d) % w32,
   (s.e + r.e) % w32, (s.f + r.f) % w32, (s.g + r.g) % w32, (s.h + r.h) % w32⟩

/-- The first `n` consecutive 64-byte blocks of a byte string. -/
def blocks : Nat → List Nat → List (List Nat)
  | 0, _ => []
  | n + 1, bytes => bytes.take 64 :: blocks n (bytes.drop 64)

/-- SHA-256 of a byte string. -/
def sha256 (msg : List Nat) : Sha256State :=
  let padded := sha256Pad msg
  (blocks (padded.length / 64) padded).foldl sha256Block sha256Init

/-- The eight hexadecimal digits of a 32-bit word. -/
def hexWord (w : Nat) : List Char :=
  [hexDigit (w / 268435456), hexDigit (w / 16777216), hexDigit (w / 1048576),
   hexDigit (w / 65536), hexDigit (w / 4096), hexDigit (w / 256), hexDigit (w / 16), hexDigit w]

/-- The call `hex.EncodeToString` on a hash value. -/
def Sha256State.hex (s : Sha256State) : String :=
  String.mk (hexWord s.a ++ hexWord s.b ++ hexWord s.c ++ hexWord s.d ++
    hexWord s.e ++ hexWord s.f ++ hexWord s.g ++ hexWord s.h)

/-- The bytes of a string (UTF-8). -/
def utf8 (s : String) : List Nat :=
  s.data.flatMap (fun c => (String.utf8EncodeChar c).map (fun b => b.toNat))

/-- Helm's `provenance.Digest`: the SHA-256 of the data, in hexadecimal. -/
def provenanceDigest (data : String) : String :=
  (sha256 (utf8 data)).hex

/-! ## Collaborators outside the repository -/

/-- The part of a unified diff that concerns one file. -/
structure Segment where
  path : String
  body : String
deriving DecidableEq, Repr

/-- What the steps of one `Patch` call that only touch temporary files, pipes and
process handles report, in the order in which `Patch` checks them.  The result of
waiting for the `patch` process is `Ext.patch`. -/
structure Plumbing where
  createIncludes : Option Error
  writeIncludes : Option Error
  createExcludes : Option Error
  writeExcludes : Option Error
  stdinPipe : Option Error
  includeStart : Option Error
  excludeStart : Option Error
  patchStart : Option Error
  includeWait : Option Error
  closeExcludePipe : Option Error
  excludeWait : Option Error
  closePatchPipe : Option Error
deriving DecidableEq, Repr

/-- The collaborators of the program. -/
structure Ext where
  /-- The call `repo.FindChartInRepoURL(repoURL, name, version, ...)`. -/
  findChartInRepoURL : String → String → String → Except Error String
  /-- The download of `ChartDownloader.DownloadTo(url, version, dest)`: the name of
  the archive file it creates in `dest`, and the bytes of that file. -/
  download : String → String → Except Error (String × String)
  /-- What `chartutil.ExpandFile` makes of the chart directory, given the bytes of the
  archive and what is at the chart directory before: its error, and what is at the
  chart directory afterwards. -/
  expand : String → Option Node → Option Error × Option Node
  /-- The call `yaml.Marshal` on a dependency list. -/
  yamlMarshalDependencies : Option (List Dependency) → Except Error String
  /-- The call `yaml.Marshal` on a lock record. -/
  yamlMarshalLock : Lock → Except Error String
  /-- The call `gerrit.NewClient(ctx, url, nil)`. -/
  newClient : String → Option Error
  /-- The call `client.Changes.GetPatch(ctx, changeID, "current", nil)` on the client
  of a URL. -/
  getPatch : String → String → Except Error String
  /-- The segments `filterdiff` reads from a diff text. -/
  parseDiff : String → List Segment
  /-- Whether a `filterdiff` pattern matches a file name. -/
  fnmatch : String → String → Bool
  /-- The plumbing of the `Patch` call on a diff text and a directory. -/
  plumbing : String → String → Plumbing
  /-- The run of `patch -p2 -d directory -E` on the segments that reach it and on what
  is at the directory: its error, and what is at the directory afterwards. -/
  patch : List Segment → Option Node → Option Error × Option Node

/-- The state a run acts on: the file system below the charts root, the `Patch`
invocations made so far (diff text, directory), and the error records logged. -/
structure World where
  fs : Dir
  patched : List (String × String)
  logged : List String
deriving DecidableEq, Repr

/-- An error that survives `err != nil && !errors.Is(err, os.ErrNotExist)`. -/
def fatal : Option Error → Option Error
  | some err => if err.isNotExist then none else some err
  | none => none

/-- The first error among the results of a sequence of steps. -/
def firstError : List (Option Error) → Option Error
  | [] => none
  | some err :: _ => some err
  | none :: rest => firstError rest

/-! ## `internal/helm` -/

namespace helm

/-- The call `dl.DownloadTo(url, version, path)`: the archive is written into `path`
and its name returned. -/
def downloadTo (ext : Ext) (url version : String) (path : Loc) (fs : Dir) :
    Except Error (String × Dir) :=
  match ext.download url version with
  | .error err => .error err
  | .ok (file, bytes) =>
    match osWriteFile fs path file bytes with
    | (some err, _) => .error err
    | (none, fs') => .ok (file, fs')

/-- The call `chartutil.ExpandFile(path, chartPath)`: the archive at `path/chartPath`
is read and expanded into `path/name`. -/
def expandFile (ext : Ext) (path : Loc) (chartPath name : String) (fs : Dir) :
    Option Error × Dir :=
  match osReadFile fs path chartPath with
  | .error err => (some err, fs)
  | .ok bytes =>
    let r := ext.expand bytes (fs.get (path.rel ++ [name]))
    match fs.within path.rel (fun d => .ok (d.assign name r.2)) with
    | .ok fs' => (r.1, fs')
    | .error e => (some (.path "mkdir" (path.text ++ "/" ++ name) e), fs)

/-- The function `helm.FetchChart(repoURL, name, version, path, directory)`
(`helm.go`, lines 27-73). -/
def FetchChart (ext : Ext) (repoURL name version : String) (path : Loc)
    (directory : String) (fs : Dir) : Option Error × Dir :=
  match ext.findChartInRepoURL repoURL name version with
  | .error err => (some err, fs)
  | .ok url =>
    match downloadTo ext url version path fs with
    | .error err => (some err, fs)
    | .ok (chartPath, fs1) =>
      match expandFile ext path chartPath name fs1 with
      | (some err, fs2) => (some err, fs2)
      | (none, fs2) =>
        match osRemove fs2 path chartPath with
        | (some err, fs3) => (some err, fs3)
        | (none, fs3) =>
          if name ≠ directory then
            match osRename fs3 path name directory with
            | (some err, fs4) => (some err, fs4)
            | (none, fs4) => (none, fs4)
          else (none, fs3)

/-- The lock record `UpdateRequirementsLock` builds from its (possibly nil)
dependency list. -/
def lockRecord (req : Option (List Dependency)) : Lock :=
  let req : List Dependency :=
    match req with
    | none => []
    | some ds => ds
  let data := jsonMarshalPair (some req) (some req)
  let digest := provenanceDigest data
  { Generated := 0, Dependencies := some req, Digest := "sha256:" ++ digest }

/-- The function `helm.UpdateRequirementsLock(path, req)` (`helm.go`, lines 75-102),
`path` being the file
`file` in the directory `dir`. -/
def UpdateRequirementsLock (ext : Ext) (dir : Loc) (file : String)
    (req : Option (List Dependency)) (fs : Dir) : Option Error × Dir :=
  match ext.yamlMarshalLock (lockRecord req) with
  | .error err => (some err, fs)
  | .ok ldata => osWriteFile fs dir file ldata

end helm

/-! ## `internal/chart_vendor` -/

namespace chart_vendor

/-- The function `path.Base` of Go. -/
def pathBase (p : String) : String :=
  if p = "" then "."
  else
    let trimmed := (p.data.reverse.dropWhile (fun c => c = '/')).reverse
    let last := (trimmed.reverse.takeWhile (fun c => c ≠ '/')).reverse
    if last = [] then "/" else String.mk last

/-- The file name `filterdiff -p1` matches patterns against: the name without its
first component (and the slashes after it); a name of one component is kept. -/
def stripOne (name : String) : String :=
  let cs := name.data
  if cs.contains '/' then
    String.mk ((cs.dropWhile (fun c => c ≠ '/')).dropWhile (fun c => c = '/'))
  else name

/-- The patterns of the include file. -/
def includes (directory : String) : List String :=
  [pathBase directory ++ "/*"]

/-- The patterns of the exclude file. -/
def excludes (directory : String) : List String :=
  [pathBase directory ++ "/Chart.yaml", pathBase directory ++ "/values_overrides/*"]

/-- Whether one of the patterns matches the segment's file name. -/
def matchesAny (ext : Ext) (patterns : List String) (s : Segment) : Bool :=
  patterns.any (fun p => ext.fnmatch p (stripOne s.path))

/-- The stage `filterdiff -p1 -I includefile`. -/
def includeFilter (ext : Ext) (patterns : List String) (segs : List Segment) : List Segment :=
  segs.filter (fun s => matchesAny ext patterns s)

/-- The stage `filterdiff -p1 -X excludefile`. -/
def excludeFilter (ext : Ext) (patterns : List String) (segs : List Segment) : List Segment :=
  segs.filter (fun s => !matchesAny ext patterns s)

/-- The segments that reach the `patch` process. -/
def effectivePatch (ext : Ext) (input directory : String) : List Segment :=
  excludeFilter ext (excludes directory)
    (includeFilter ext (includes directory) (ext.parseDiff input))

/-- The error `Patch` returns before it waits for the `patch` process, if any step up
to there fails. -/
def plumbingError (p : Plumbing) : Option Error :=
  firstError [
    p.createIncludes, p.writeIncludes, p.createExcludes, p.writeExcludes, p.stdinPipe,
    p.includeStart, p.excludeStart, p.patchStart,
    p.includeWait.map (fun err => .join err (.text "failed to run include filterdiff")),
    p.closeExcludePipe,
    p.excludeWait.map (fun err => .join err (.text "failed to run exclude filterdiff")),
    p.closePatchPipe]

/-- The function `Patch(logger, input, directory)` (`chart_vendor.go`, lines
25-122).  The invocation is recorded.  Left out: what processes abandoned by an
early return still do, and the writer goroutine of lines 63-66, which feeds the
include filter and assigns the result of its write to the `err` the main flow is
checking at the same time. -/
def Patch (ext : Ext) (input : String) (directory : Loc) (w : World) : Option Error × World :=
  let w := { w with patched := w.patched ++ [(input, directory.text)] }
  match plumbingError (ext.plumbing input directory.text) with
  | some err => (some err, w)
  | none =>
    let r := ext.patch (effectivePatch ext input directory.text) (w.fs.get directory.rel)
    let fs' := w.fs.store directory.rel r.2
    match r.1 with
    | some err => (some err, { w with fs := fs', logged := w.logged ++ ["failed to apply patch"] })
    | none => (none, { w with fs := fs' })

/-- One goroutine of the dependency fan-out (lines 196-220). -/
def fetchDependency (ext : Ext) (path : Loc) (directory : String) (dependency : Dependency)
    (fs : Dir) : Option Error × Dir :=
  let charts := (path.sub directory).sub "charts"
  let r1 := osRemoveAll fs charts dependency.Name
  match fatal r1.1 with
  | some err => (some err, r1.2)
  | none =>
    let r2 := helm.FetchChart ext dependency.Repository dependency.Name dependency.Version
      charts dependency.Name r1.2
    match r2.1 with
    | some err => (some err, r2.2)
    | none =>
      helm.UpdateRequirementsLock ext (charts.sub dependency.Name) "requirements.lock" none r2.2

/-- The dependency fan-out and `g.Wait()` (lines 193-226). -/
def fetchDependencies (ext : Ext) (path : Loc) (directory : String) :
    List Dependency → Dir → Option Error × Dir
  | [], fs => (none, fs)
  | dependency :: rest, fs =>
    let r1 := fetchDependency ext path directory dependency fs
    let r2 := fetchDependencies ext path directory rest r1.2
    (firstError [r1.1, r2.1], r2.2)

/-- The inner loop over the changes of one review-system host (lines 244-257). -/
def applyChanges (ext : Ext) (url : String) (target : Loc) :
    List String → World → Option Error × World
  | [], w => (none, w)
  | changeID :: rest, w =>
    match ext.getPatch url changeID with
    | .error err => (some err, w)
    | .ok patch =>
      match Patch ext patch target w with
      | (some err, w') => (some err, w')
      | (none, w') => applyChanges ext url target rest w'

/-- The loop over `chart.Patches.Gerrit` (lines 237-258). -/
def applyGerrit (ext : Ext) (target : Loc) :
    List (String × List String) → World → Option Error × World
  | [], w => (none, w)
  | (host, changes) :: rest, w =>
    let url := "https://" ++ host
    match ext.newClient url with
    | some err => (some err, w)
    | none =>
      match applyChanges ext url target changes w with
      | (some err, w') => (some err, w')
      | (none, w') => applyGerrit ext target rest w'

/-- Whether a file name matches `*.patch`. -/
def isPatchFile (n : String) : Bool :=
  ".patch".data.isSuffixOf n.data

/-- The call `filepath.Glob(patchesPath/*.patch)`: the matching entries of the
directory, as (path string, entry name). -/
def globPatches (fs : Dir) (patchesPath : Loc) : List (String × String) :=
  match fs.get patchesPath.rel with
  | some (.dir d) =>
    (((d.map Prod.fst).dedup).filter isPatchFile).map
      (fun n => (patchesPath.text ++ "/" ++ n, n))
  | _ => []

/-- The call `sort.Strings` on the path strings, which Go compares byte by byte:
for UTF-8 that is the lexicographic order of their characters. -/
def sortStrings (patches : List (String × String)) : List (String × String) :=
  patches.insertionSort (fun a b => a.1.data ≤ b.1.data)

/-- The loop over the local patch files (lines 271-284). -/
def applyLocal (ext : Ext) (patchesPath target : Loc) :
    List (String × String) → World → Option Error × World
  | [], w => (none, w)
  | patch :: rest, w =>
    match osReadFile w.fs patchesPath patch.2 with
    | .error err => (some err, w)
    | .ok patchData =>
      match Patch ext patchData target w with
      | (some err, w') => (some err, w')
      | (none, w') => applyLocal ext patchesPath target rest w'

/-- The patching part of `FetchChart` (lines 237-287): review-system patches, then
local ones. -/
def applyPatches (ext : Ext) (chart : Chart) (path : Loc) (directory : String) (w : World) :
    Option Error × World :=
  match applyGerrit ext (path.sub directory) chart.Patches.Gerrit w with
  | (some err, w') => (some err, w')
  | (none, w') =>
    let patchesPath := (path.sub "patches").sub chart.Name
    match w'.fs.get patchesPath.rel with
    | some _ =>
      applyLocal ext patchesPath (path.sub directory)
        (sortStrings (globPatches w'.fs patchesPath)) w'
    | none => (none, w')

/-- The part of `FetchChart` between the fetch and the patches (lines 170-235): the
backup is removed, the requirements and the dependencies are written and the lock is
generated. -/
def lockChart (ext : Ext) (chart : Chart) (path : Loc) (directory : String) (w : World) :
    Option Error × World :=
  let r1 := osRemoveAll w.fs path (directory ++ "-" ++ chart.Version)
  match fatal r1.1 with
  | some err => (some err, { w with fs := r1.2 })
  | none =>
    let r2 : Option Error × Dir :=
      match chart.Dependencies with
      | some (dep :: deps) =>
        match ext.yamlMarshalDependencies chart.Dependencies with
        | .error err => (some err, r1.2)
        | .ok requirementdata =>
          match osWriteFile r1.2 (path.sub directory) "requirements.yaml"
              ("dependencies:\n" ++ requirementdata) with
          | (some err, fs) => (some err, fs)
          | (none, fs) => fetchDependencies ext path directory (dep :: deps) fs
      | _ => (none, r1.2)
    match r2.1 with
    | some err => (some err, { w with fs := r2.2 })
    | none =>
      let r3 := helm.UpdateRequirementsLock ext (path.sub directory) "requirements.lock"
        chart.Dependencies r2.2
      (r3.1, { w with fs := r3.2 })

/-- The part of `FetchChart` after a successful fetch (lines 170-287). -/
def finishChart (ext : Ext) (chart : Chart) (path : Loc) (directory : String) (w : World) :
    Option Error × World :=
  match lockChart ext chart path directory w with
  | (some err, w') => (some err, w')
  | (none, w') => applyPatches ext chart path directory w'

/-- The directory name `FetchChart` works on: `chart.Directory` when it is set, the
chart's name otherwise. -/
def targetDirectory (chart : Chart) : String :=
  match chart.Directory with
  | some d => d
  | none => chart.Name

/-- The function `FetchChart(chart, path)` (`chart_vendor.go`, lines 124-288): the
swap around the fetch delegate, then `finishChart`. -/
def FetchChart (ext : Ext) (chart : Chart) (path : String) (w : World) : Option Error × World :=
  let root : Loc := ⟨path, []⟩
  let directory := targetDirectory chart
  let r1 := osRemoveAll w.fs root (directory ++ "-" ++ chart.Version)
  match fatal r1.1 with
  | some err => (some err, { w with fs := r1.2 })
  | none =>
    let r2 := osRename r1.2 root directory (directory ++ "-" ++ chart.Version)
    match fatal r2.1 with
    | some err => (some err, { w with fs := r2.2 })
    | none =>
      let r3 := helm.FetchChart ext chart.Repository.URL chart.Name chart.Version root
        directory r2.2
      match r3.1 with
      | some err =>
        let r4 := osRename r3.2 root (directory ++ "-" ++ chart.Version) directory
        match r4.1 with
        | some nerr => (some nerr, { w with fs := r4.2 })
        | none => (some err, { w with fs := r4.2 })
      | none => finishChart ext chart root directory { w with fs := r3.2 }

end chart_vendor

/-! ## The check mode of `main` -/

/-- The status codes of go-git. -/
inductive StatusCode where
  | Unmodified
  | Untracked
  | Modified
  | Added
  | Deleted
  | Renamed
  | Copied
  | UpdatedButUnmerged
deriving DecidableEq, Repr

/-- The staging and worktree states go-git reports for a file. -/
structure FileStatus where
  Staging : StatusCode
  Worktree : StatusCode
deriving DecidableEq, Repr

/-- The body of the loop over the status (`main.go`, lines 80-90): the flag `passed`
and the lines printed. -/
def checkFile (acc : Bool × List String) (entry : String × FileStatus) : Bool × List String :=
  let file := entry.1
  let stat := entry.2
  let acc :=
    if stat.Staging ≠ .Unmodified ∨ stat.Worktree ≠ .Unmodified then
      (false, acc.2 ++ ["Changed file: " ++ file ++ "\n"])
    else acc
  if stat.Worktree = .Untracked then
    (false, acc.2 ++ ["Untracked file: " ++ file ++ "\n"])
  else acc

/-- The verdict of the check mode on the status of the worktree, the entries of the
status being listed in the order in which the run iterates over them. -/
def check (status : List (String × FileStatus)) : Option Error × List String :=
  let r := status.foldl checkFile (true, [])
  if !r.1 then (some (.text "uncommitted changes or untracked files found"), r.2)
  else (none, r.2 ++ ["No uncommitted changes or untracked files."])


/-! ## Concrete collaborators, for the instances below -/

/-- A plumbing in which every step succeeds. -/
def Plumbing.ok : Plumbing :=
  ⟨none, none, none, none, none, none, none, none, none, none, none, none⟩

/-- Matching of a pattern whose only special character is `*`. -/
def starMatch : List Char → List Char → Bool
  | [], s => s.isEmpty
  | '*' :: p, s => s.tails.any (starMatch p)
  | c :: p, s =>
    match s with
    | [] => false
    | d :: rest => c == d && starMatch p rest

/-- Collaborators that succeed for every chart but `missing`: an archive expands to
a directory holding a new `Chart.yaml`, a diff text is one segment whose file name
is its first line, and `patch` records the segments it was given in the file
`applied`. -/
def sampleExt : Ext where
  findChartInRepoURL := fun repoURL name version =>
    if name = "missing" then .error (.text "chart \"missing\" not found")
    else .ok (repoURL ++ "/" ++ name ++ "-" ++ version ++ ".tgz")
  download := fun url _ => .ok (chart_vendor.pathBase url, "archive")
  expand := fun _ _ => (none, some (.dir [("Chart.yaml", .file "new")]))
  yamlMarshalDependencies := fun _ => .ok "- name: dep\n"
  yamlMarshalLock := fun lock => .ok ("digest: " ++ lock.Digest ++ "\n")
  newClient := fun _ => none
  getPatch := fun _ changeID => .ok ("a/foo/values.yaml\n" ++ changeID)
  parseDiff := fun text => [⟨String.mk (text.data.takeWhile (fun c => c ≠ '\n')), text⟩]
  fnmatch := fun p n => starMatch p.data n.data
  plumbing := fun _ _ => Plumbing.ok
  patch := fun segs target =>
    match target with
    | some (.dir d) =>
      (none, some (.dir (Dir.put d "applied" (.file (String.join (segs.map Segment.body))))))
    | other => (some (.exit 2), other)

/-- The collaborators of `sampleExt`, with an archive expansion that fails after it
has written `Chart.yaml`. -/
def expandFailsExt : Ext :=
  { sampleExt with
    expand := fun _ _ =>
      (some (.text "write templates/deployment.yaml: no space left on device"),
        some (.dir [("Chart.yaml", .file "new")])) }

/-- The collaborators of `sampleExt`, with a chart repository that has no chart. -/
def noChartExt : Ext :=
  { sampleExt with findChartInRepoURL := fun _ _ _ => .error (.text "chart not found") }

/-- The chart `foo` at version `1.0`, vendored under its own name. -/
def fooChart : Chart :=
  ⟨"foo", "1.0", ⟨"https://charts.example"⟩, none, none, ⟨[]⟩⟩

/-- A charts root holding a vendored `foo`. -/
def fooWorld : World :=
  ⟨[("foo", .dir [("Chart.yaml", .file "old")])], [], []⟩

/-- The chart `foo` with the changes `A` and `B` of one review-system host. -/
def reviewedChart : Chart :=
  { fooChart with Patches := ⟨[("review.example", ["A", "B"])]⟩ }

/-- A charts root holding a vendored `foo` and the local patches `b.patch` and
`a.patch` for it, next to a file that is no patch. -/
def patchesWorld : World :=
  ⟨[("foo", .dir [("Chart.yaml", .file "old")]),
    ("patches", .dir [("foo", .dir [
      ("b.patch", .file "a/foo/values.yaml\n+b"),
      ("a.patch", .file "a/foo/values.yaml\n+a"),
      ("README", .file "notes")])])], [], []⟩

/-- The collaborators of `sampleExt`, with a `patch` process that rejects every
diff. -/
def patchRejectsExt : Ext :=
  { sampleExt with patch := fun _ target => (some (.exit 1), target) }


/-! ## The call of the fetch delegate inside `FetchChart` -/

/-- The file system in which `FetchChart` calls the fetch delegate: the stale backup
removed, the target directory moved to the backup name. -/
def chart_vendor.vacated (chart : Chart) (path : String) (fs : Dir) : Dir :=
  (osRename (osRemoveAll fs ⟨path, []⟩
      (chart_vendor.targetDirectory chart ++ "-" ++ chart.Version)).2 ⟨path, []⟩
    (chart_vendor.targetDirectory chart)
    (chart_vendor.targetDirectory chart ++ "-" ++ chart.Version)).2

/-- The result of the fetch delegate as `FetchChart` calls it. -/
def chart_vendor.delegated (ext : Ext) (chart : Chart) (path : String) (fs : Dir) :
    Option Error × Dir :=
  helm.FetchChart ext chart.Repository.URL chart.Name chart.Version ⟨path, []⟩
    (chart_vendor.targetDirectory chart) (chart_vendor.vacated chart path fs)


/-- Two directories have the same entries under every name other than `n`. -/
def Dir.agreeOutside (n : String) (a b : Dir) : Prop :=
  ∀ m, m ≠ n → b.find m = a.find m


/-! ## The patch order, in the words of the specification -/

/-- The current patch of a change, as the review system of `host` serves it. -/
def chart_vendor.changeText (ext : Ext) (host changeID : String) : String :=
  match ext.getPatch ("https://" ++ host) changeID with
  | .ok text => text
  | .error _ => ""

/-- The bytes of the file at a location. -/
def chart_vendor.fileText (fs : Dir) (p : Path) : String :=
  match fs.get p with
  | some (.file text) => text
  | _ => ""

/-- The names of the `*.patch` entries of `patches/<chart-name>`, in ascending
lexical order. -/
def chart_vendor.localPatchNames (fs : Dir) (chart : Chart) : List String :=
  match fs.get ["patches", chart.Name] with
  | some (.dir d) =>
    (((d.map Prod.fst).dedup).filter chart_vendor.isPatchFile).insertionSort
      (fun a b => a.data ≤ b.data)
  | _ => []

/-- The patches of the changes in declared order, then the local patch files in
ascending lexical order of their names, all against `path/directory`. -/
def chart_vendor.patchSequence (ext : Ext) (chart : Chart) (path : String) (fs : Dir)
    (host : String) (changes : List String) : List (String × String) :=
  changes.map (fun c =>
      (chart_vendor.changeText ext host c, path ++ "/" ++ chart_vendor.targetDirectory chart)) ++
    (chart_vendor.localPatchNames fs chart).map (fun n =>
      (chart_vendor.fileText fs ["patches", chart.Name, n],
        path ++ "/" ++ chart_vendor.targetDirectory chart))


/-! ## Changing one version -/

/-- The list `deps'` is `deps` with the version of one dependency changed to a
different string. -/
def VersionChanged (deps deps' : List Dependency) : Prop :=
  ∃ (pre : List Dependency) (d : Dependency) (post : List Dependency) (v : String),
    v ≠ d.Version ∧ deps = pre ++ d :: post ∧ deps' = pre ++ { d with Version := v } :: post

/-- The digest `UpdateRequirementsLock` writes for a dependency list. -/
def helm.lockDigest (deps : List Dependency) : String :=
  (helm.lockRecord (some deps)).Digest

/-- The bytes `UpdateRequirementsLock` hashes for a dependency list. -/
def helm.lockData (deps : List Dependency) : String :=
  jsonMarshalPair (some deps) (some deps)

/-- Two different texts with the same SHA-256 hash value. -/
def helm.Collision (a b : String) : Prop :=
  a ≠ b ∧ sha256 (utf8 a) = sha256 (utf8 b)

/-- A hash value whose words all fit in 32 bits. -/
def Sha256State.Reduced (s : Sha256State) : Prop :=
  s.a < w32 ∧ s.b < w32 ∧ s.c < w32 ∧ s.d < w32 ∧ s.e < w32 ∧ s.f < w32 ∧ s.g < w32 ∧ s.h < w32

/-- The value of a hexadecimal digit. -/
def unhex (c : Char) : Nat :=
  "0123456789abcdef".data.indexOf c

/-- The character at the head of an escaped text, and the rest of the text: a left
inverse of `jsonEscape`. -/
def jsonUnescape : List Char → Option (Char × List Char)
  | [] => none
  | c :: x =>
    if c = '\\' then
      match x with
      | [] => none
      | k :: x1 =>
        if k = '"' then some ('"', x1)
        else if k = '\\' then some ('\\', x1)
        else if k = 'b' then some ('\x08', x1)
        else if k = 'f' then some ('\x0c', x1)
        else if k = 'n' then some ('\n', x1)
        else if k = 'r' then some ('\r', x1)
        else if k = 't' then some ('\t', x1)
        else
          match x1 with
          | a :: _ :: d :: e :: x2 =>
            if a = '0' then some (Char.ofNat (16 * unhex d + unhex e), x2)
            else if e = '8' then some ('\u2028', x2)
            else some ('\u2029', x2)
          | _ => none
    else some (c, x)


/-! ## Entries of a directory -/

theorem Dir.find_del_self (d : Dir) (n : String) : (d.del n).find n = none := by
  induction d with
  | nil => rfl
  | cons e rest ih =>
    obtain ⟨k, v⟩ := e
    by_cases h : k = n <;> simp [Dir.del, Dir.find, h, ih]

theorem Dir.find_del_ne (d : Dir) {n m : String} (h : n ≠ m) :
    (d.del n).find m = d.find m := by
  induction d with
  | nil => rfl
  | cons e rest ih =>
    obtain ⟨k, v⟩ := e
    by_cases hk : k = n
    · have hm : k ≠ m := by rw [hk]; exact h
      simp [Dir.del, Dir.find, hk, ih, h]
    · by_cases hm : k = m
      · subst hm
        simp [Dir.del, Dir.find, hk]
      · simp [Dir.del, Dir.find, hk, hm, ih]

theorem Dir.find_put_self (d : Dir) (n : String) (v : Node) : (d.put n v).find n = some v := by
  simp [Dir.put, Dir.find]

theorem Dir.find_put_ne (d : Dir) {n m : String} (v : Node) (h : n ≠ m) :
    (d.put n v).find m = d.find m := by
  simp [Dir.put, Dir.find, h, Dir.find_del_ne d h]

theorem Dir.find_assign_self (d : Dir) (n : String) (v : Option Node) :
    (d.assign n v).find n = v := by
  cases v <;> simp [Dir.assign, Dir.find_del_self, Dir.find_put_self]

theorem Dir.find_assign_ne (d : Dir) {n m : String} (v : Option Node) (h : n ≠ m) :
    (d.assign n v).find m = d.find m := by
  cases v <;> simp [Dir.assign, Dir.find_del_ne d h, Dir.find_put_ne d _ h]

theorem Dir.get_single (d : Dir) (n : String) : d.get [n] = d.find n := by
  unfold Dir.get
  cases d.find n <;> rfl

/-! ## The check mode -/

theorem checkFile_flag (acc : Bool × List String) (entry : String × FileStatus) :
    (checkFile acc entry).1 =
      (acc.1 && decide (entry.2.Staging = .Unmodified ∧ entry.2.Worktree = .Unmodified)) := by
  obtain ⟨file, staging, worktree⟩ := entry
  obtain ⟨flag, out⟩ := acc
  cases staging <;> cases worktree <;> simp [checkFile]

theorem check_foldl_flag (status : List (String × FileStatus)) (acc : Bool × List String) :
    (status.foldl checkFile acc).1 =
      (acc.1 && status.all fun entry =>
        decide (entry.2.Staging = .Unmodified ∧ entry.2.Worktree = .Unmodified)) := by
  induction status generalizing acc with
  | nil => simp
  | cons entry rest ih =>
    rw [List.foldl_cons, ih, checkFile_flag, List.all_cons, Bool.and_assoc]

/-- C9. The check of `main` returns no error exactly when every file of the status
has both its staging and its worktree state `Unmodified`; in every other case (a
file with another staging or worktree state, an `Untracked` file among them) it
returns the error "uncommitted changes or untracked files found". -/
theorem check_verdict (status : List (String × FileStatus)) :
    ((check status).1 = none ↔
        ∀ entry ∈ status, entry.2.Staging = .Unmodified ∧ entry.2.Worktree = .Unmodified) ∧
      ((∃ entry ∈ status, entry.2.Staging ≠ .Unmodified ∨ entry.2.Worktree ≠ .Unmodified ∨
          entry.2.Worktree = .Untracked) →
        (check status).1 = some (.text "uncommitted changes or untracked files found")) := by
  have hflag := check_foldl_flag status (true, [])
  simp only [Bool.true_and] at hflag
  constructor
  · unfold check
    by_cases h : (status.foldl checkFile (true, [])).1 = true
    · simp only [h, Bool.not_true, Bool.false_eq_true, if_false, true_iff]
      rw [hflag, List.all_eq_true] at h
      intro entry hmem
      simpa using h entry hmem
    · have h' : (status.foldl checkFile (true, [])).1 = false := by simpa using h
      simp only [h', Bool.not_false, if_true]
      rw [hflag, List.all_eq_false] at h'
      obtain ⟨entry, hmem, hbad⟩ := h'
      constructor
      · intro hc; cases hc
      · intro hall
        exact absurd (by simpa using hall entry hmem) hbad
  · rintro ⟨entry, hmem, hbad⟩
    unfold check
    have h' : (status.foldl checkFile (true, [])).1 = false := by
      rw [hflag, List.all_eq_false]
      refine ⟨entry, hmem, ?_⟩
      rcases hbad with h | h | h
      · simp [h]
      · simp [h]
      · simp [h]
    simp [h']


/-! ## The patch pipeline -/

theorem chart_vendor.mem_effectivePatch (ext : Ext) (input directory : String) (seg : Segment) :
    seg ∈ chart_vendor.effectivePatch ext input directory ↔
      seg ∈ ext.parseDiff input ∧
        chart_vendor.matchesAny ext (chart_vendor.includes directory) seg = true ∧
        chart_vendor.matchesAny ext (chart_vendor.excludes directory) seg = false := by
  simp only [chart_vendor.effectivePatch, chart_vendor.excludeFilter,
    chart_vendor.includeFilter, List.mem_filter, Bool.not_eq_true', and_assoc]

/-- C3. Every segment that `Patch` hands to the `patch` process for a directory
with last component `d` has a file name (first component stripped) matching `d/*`
and matching neither `d/Chart.yaml` nor `d/values_overrides/*`; a diff whose segments
all match `d/Chart.yaml` or `d/values_overrides/*` reaches the process empty. -/
theorem chart_vendor.Patch_scope (ext : Ext) (input : String) (directory : Loc) (d : String)
    (w : World) (hd : chart_vendor.pathBase directory.text = d) :
    (∀ seg ∈ chart_vendor.effectivePatch ext input directory.text,
        ext.fnmatch (d ++ "/*") (chart_vendor.stripOne seg.path) = true ∧
        ext.fnmatch (d ++ "/Chart.yaml") (chart_vendor.stripOne seg.path) = false ∧
        ext.fnmatch (d ++ "/values_overrides/*") (chart_vendor.stripOne seg.path) = false) ∧
      ((∀ seg ∈ ext.parseDiff input,
          ext.fnmatch (d ++ "/Chart.yaml") (chart_vendor.stripOne seg.path) = true ∨
          ext.fnmatch (d ++ "/values_overrides/*") (chart_vendor.stripOne seg.path) = true) →
        chart_vendor.effectivePatch ext input directory.text = []) ∧
      (chart_vendor.plumbingError (ext.plumbing input directory.text) = none →
        (chart_vendor.Patch ext input directory w).1 =
          (ext.patch (chart_vendor.effectivePatch ext input directory.text)
            (w.fs.get directory.rel)).1) := by
  refine ⟨?_, ?_, ?_⟩
  · intro seg hseg
    rw [chart_vendor.mem_effectivePatch] at hseg
    obtain ⟨_, hin, hex⟩ := hseg
    simp only [chart_vendor.matchesAny, chart_vendor.includes, chart_vendor.excludes, hd,
      List.any_cons, List.any_nil, Bool.or_false, Bool.or_eq_false_iff] at hin hex
    exact ⟨hin, hex.1, hex.2⟩
  · intro hall
    apply List.eq_nil_iff_forall_not_mem.2
    intro seg hseg
    rw [chart_vendor.mem_effectivePatch] at hseg
    obtain ⟨hmem, _, hex⟩ := hseg
    simp only [chart_vendor.matchesAny, chart_vendor.excludes, hd,
      List.any_cons, List.any_nil, Bool.or_false, Bool.or_eq_false_iff] at hex
    rcases hall seg hmem with h | h
    · rw [h] at hex; exact absurd hex.1 (by simp)
    · rw [h] at hex; exact absurd hex.2 (by simp)
  · intro hp
    simp only [chart_vendor.Patch, hp]
    cases (ext.patch (chart_vendor.effectivePatch ext input directory.text)
      (w.fs.get directory.rel)).1 <;> rfl

/-- C3, at the directory `charts/foo`: a diff of `foo/Chart.yaml` alone reaches the
`patch` process empty. -/
theorem chart_vendor.Patch_scope_witness :
    chart_vendor.pathBase "charts/foo" = "foo" ∧
      (∀ seg ∈ sampleExt.parseDiff "a/foo/Chart.yaml\n+version: 9",
        sampleExt.fnmatch ("foo" ++ "/Chart.yaml") (chart_vendor.stripOne seg.path) = true ∨
        sampleExt.fnmatch ("foo" ++ "/values_overrides/*")
          (chart_vendor.stripOne seg.path) = true) ∧
      chart_vendor.effectivePatch sampleExt "a/foo/Chart.yaml\n+version: 9" "charts/foo" = [] :=
  have hd : chart_vendor.pathBase "charts/foo" = "foo" := by decide
  have hall : ∀ seg ∈ sampleExt.parseDiff "a/foo/Chart.yaml\n+version: 9",
      sampleExt.fnmatch ("foo" ++ "/Chart.yaml") (chart_vendor.stripOne seg.path) = true ∨
      sampleExt.fnmatch ("foo" ++ "/values_overrides/*")
        (chart_vendor.stripOne seg.path) = true := by decide
  ⟨hd, hall,
    (chart_vendor.Patch_scope sampleExt "a/foo/Chart.yaml\n+version: 9" ⟨"charts/foo", ["foo"]⟩
      "foo" ⟨[], [], []⟩ hd).2.1 hall⟩


/-- What `Patch` returns when the wait for one of its three processes fails, the
steps before it having succeeded. -/
theorem chart_vendor.Patch_stage_errors (ext : Ext) (input : String) (directory : Loc)
    (w : World) (err : Error) :
    (∀ c e d : Option Error, ext.plumbing input directory.text =
          ⟨none, none, none, none, none, none, none, none, some err, c, e, d⟩ →
        (chart_vendor.Patch ext input directory w).1 =
          some (.join err (.text "failed to run include filterdiff"))) ∧
      (∀ d : Option Error, ext.plumbing input directory.text =
          ⟨none, none, none, none, none, none, none, none, none, none, some err, d⟩ →
        (chart_vendor.Patch ext input directory w).1 =
          some (.join err (.text "failed to run exclude filterdiff"))) ∧
      (ext.plumbing input directory.text = Plumbing.ok →
        (ext.patch (chart_vendor.effectivePatch ext input directory.text)
          (w.fs.get directory.rel)).1 = some err →
        (chart_vendor.Patch ext input directory w).1 = some err ∧
          (chart_vendor.Patch ext input directory w).2.logged =
            w.logged ++ ["failed to apply patch"]) := by
  refine ⟨?_, ?_, ?_⟩
  · intro c e d hp
    simp [chart_vendor.Patch, hp, chart_vendor.plumbingError, firstError]
  · intro d hp
    simp [chart_vendor.Patch, hp, chart_vendor.plumbingError, firstError]
  · intro hp hpatch
    simp [chart_vendor.Patch, hp, chart_vendor.plumbingError, firstError, Plumbing.ok, hpatch]

/-- C8 fails on the code. On a diff for `charts/foo`, when the `patch` process exits
with status 1, `Patch` returns that exit error alone, carrying no annotation, and
names the stage in the log only; when instead the wait for the include or for the
exclude filter ends with that status, the returned error carries the annotation of
its stage. A `filterdiff` that cannot be started gives the same returned error
whether it is the include or the exclude stage. -/
theorem chart_vendor.Patch_apply_failure_unannotated :
    (chart_vendor.Patch patchRejectsExt "a/foo/values.yaml\n+x" ⟨"charts/foo", ["foo"]⟩
        ⟨[("foo", .dir [("values.yaml", .file "y")])], [], []⟩).1 = some (.exit 1) ∧
      (Error.exit 1).annotations = [] ∧
      (chart_vendor.Patch patchRejectsExt "a/foo/values.yaml\n+x" ⟨"charts/foo", ["foo"]⟩
        ⟨[("foo", .dir [("values.yaml", .file "y")])], [], []⟩).2.logged =
          ["failed to apply patch"] ∧
      (chart_vendor.Patch
        { sampleExt with plumbing := fun _ _ => { Plumbing.ok with includeWait := some (.exit 1) } }
        "a/foo/values.yaml\n+x" ⟨"charts/foo", ["foo"]⟩
        ⟨[("foo", .dir [("values.yaml", .file "y")])], [], []⟩).1 =
          some (.join (.exit 1) (.text "failed to run include filterdiff")) ∧
      (chart_vendor.Patch
        { sampleExt with plumbing := fun _ _ => { Plumbing.ok with excludeWait := some (.exit 1) } }
        "a/foo/values.yaml\n+x" ⟨"charts/foo", ["foo"]⟩
        ⟨[("foo", .dir [("values.yaml", .file "y")])], [], []⟩).1 =
          some (.join (.exit 1) (.text "failed to run exclude filterdiff")) ∧
      (chart_vendor.Patch
        { sampleExt with plumbing := fun _ _ =>
            { Plumbing.ok with includeStart := some (.text "fork/exec /usr/bin/filterdiff: resource temporarily unavailable") } }
        "a/foo/values.yaml\n+x" ⟨"charts/foo", ["foo"]⟩ ⟨[], [], []⟩).1 =
      (chart_vendor.Patch
        { sampleExt with plumbing := fun _ _ =>
            { Plumbing.ok with excludeStart := some (.text "fork/exec /usr/bin/filterdiff: resource temporarily unavailable") } }
        "a/foo/values.yaml\n+x" ⟨"charts/foo", ["foo"]⟩ ⟨[], [], []⟩).1 := by
  refine ⟨by decide, by decide, by decide, by decide, by decide, by decide⟩


/-! ## The swap around the fetch delegate -/

theorem backup_ne (d v : String) : d ≠ d ++ "-" ++ v := by
  intro h
  have hl := congrArg String.length h
  simp only [String.length_append] at hl
  have h1 : "-".length = 1 := by decide
  omega

theorem chart_vendor.vacated_find_directory (chart : Chart) (path : String) (fs : Dir) :
    (chart_vendor.vacated chart path fs).find (chart_vendor.targetDirectory chart) = none := by
  have hne := backup_ne (chart_vendor.targetDirectory chart) chart.Version
  simp only [chart_vendor.vacated, osRemoveAll, osRename, Dir.within, renameIn,
    Dir.find_del_self]
  cases hfind : (fs.del (chart_vendor.targetDirectory chart ++ "-" ++ chart.Version)).find
      (chart_vendor.targetDirectory chart) with
  | none => simp [hfind]
  | some v => simp [Dir.find_put_ne _ _ hne.symm, Dir.find_del_self]

theorem chart_vendor.vacated_find_backup (chart : Chart) (path : String) (fs : Dir) :
    (chart_vendor.vacated chart path fs).find
        (chart_vendor.targetDirectory chart ++ "-" ++ chart.Version) =
      fs.find (chart_vendor.targetDirectory chart) := by
  have hne := backup_ne (chart_vendor.targetDirectory chart) chart.Version
  simp only [chart_vendor.vacated, osRemoveAll, osRename, Dir.within, renameIn,
    Dir.find_del_self]
  rw [Dir.find_del_ne _ hne.symm]
  cases hfind : fs.find (chart_vendor.targetDirectory chart) with
  | none => simp [Dir.find_del_self]
  | some v => simp [Dir.find_put_self]

theorem chart_vendor.FetchChart_eq (ext : Ext) (chart : Chart) (path : String) (w : World) :
    chart_vendor.FetchChart ext chart path w =
      match (chart_vendor.delegated ext chart path w.fs).1 with
      | some err =>
        match (osRename (chart_vendor.delegated ext chart path w.fs).2 ⟨path, []⟩
            (chart_vendor.targetDirectory chart ++ "-" ++ chart.Version)
            (chart_vendor.targetDirectory chart)).1 with
        | some nerr =>
          (some nerr, { w with fs := (osRename (chart_vendor.delegated ext chart path w.fs).2
            ⟨path, []⟩ (chart_vendor.targetDirectory chart ++ "-" ++ chart.Version)
            (chart_vendor.targetDirectory chart)).2 })
        | none =>
          (some err, { w with fs := (osRename (chart_vendor.delegated ext chart path w.fs).2
            ⟨path, []⟩ (chart_vendor.targetDirectory chart ++ "-" ++ chart.Version)
            (chart_vendor.targetDirectory chart)).2 })
      | none =>
        chart_vendor.finishChart ext chart ⟨path, []⟩ (chart_vendor.targetDirectory chart)
          { w with fs := (chart_vendor.delegated ext chart path w.fs).2 } := by
  have h1 : fatal (osRemoveAll w.fs ⟨path, []⟩
      (chart_vendor.targetDirectory chart ++ "-" ++ chart.Version)).1 = none := by
    simp [osRemoveAll, Dir.within, fatal]
  have h2 : fatal (osRename (osRemoveAll w.fs ⟨path, []⟩
      (chart_vendor.targetDirectory chart ++ "-" ++ chart.Version)).2 ⟨path, []⟩
      (chart_vendor.targetDirectory chart)
      (chart_vendor.targetDirectory chart ++ "-" ++ chart.Version)).1 = none := by
    simp only [osRemoveAll, osRename, Dir.within, renameIn, Dir.find_del_self]
    cases (w.fs.del (chart_vendor.targetDirectory chart ++ "-" ++ chart.Version)).find
      (chart_vendor.targetDirectory chart) <;> simp [fatal, Error.isNotExist]
  simp only [chart_vendor.FetchChart, h1, h2, chart_vendor.delegated, chart_vendor.vacated]


/-! ## What the steps below one entry of the root leave alone -/

theorem Dir.agreeOutside_refl (n : String) (a : Dir) : Dir.agreeOutside n a a :=
  fun _ _ => rfl

theorem Dir.agreeOutside_trans {n : String} {a b c : Dir} (h1 : Dir.agreeOutside n a b)
    (h2 : Dir.agreeOutside n b c) : Dir.agreeOutside n a c :=
  fun m hm => (h2 m hm).trans (h1 m hm)

theorem Dir.within_agree {fs fs' : Dir} {n : String} {rest : Path}
    {f : Dir → Except Errno Dir} (h : fs.within (n :: rest) f = .ok fs') :
    Dir.agreeOutside n fs fs' := by
  intro m hm
  unfold Dir.within at h
  split at h
  · split at h
    · injection h with h
      rw [← h, Dir.find_put_ne _ _ (Ne.symm hm)]
    · cases h
  · cases h
  · cases h

theorem Dir.store_agree (fs : Dir) (n : String) (rest : Path) (v : Option Node) :
    Dir.agreeOutside n fs (fs.store (n :: rest) v) := by
  intro m hm
  unfold Dir.store
  split
  · exact Dir.find_assign_ne _ _ (Ne.symm hm)
  · split
    · exact Dir.find_put_ne _ _ (Ne.symm hm)
    · rfl

theorem osRemoveAll_agree (fs : Dir) (dir : Loc) (x n : String) (rest : Path)
    (h : dir.rel = n :: rest) : Dir.agreeOutside n fs (osRemoveAll fs dir x).2 := by
  unfold osRemoveAll
  rw [h]
  split
  · next heq => exact Dir.within_agree heq
  · exact Dir.agreeOutside_refl _ _

theorem osRename_agree (fs : Dir) (dir : Loc) (x y n : String) (rest : Path)
    (h : dir.rel = n :: rest) : Dir.agreeOutside n fs (osRename fs dir x y).2 := by
  unfold osRename
  rw [h]
  split
  · next heq => exact Dir.within_agree heq
  · exact Dir.agreeOutside_refl _ _

theorem osRemove_agree (fs : Dir) (dir : Loc) (x n : String) (rest : Path)
    (h : dir.rel = n :: rest) : Dir.agreeOutside n fs (osRemove fs dir x).2 := by
  unfold osRemove
  rw [h]
  split
  · next heq => exact Dir.within_agree heq
  · exact Dir.agreeOutside_refl _ _

theorem osWriteFile_agree (fs : Dir) (dir : Loc) (x data n : String) (rest : Path)
    (h : dir.rel = n :: rest) : Dir.agreeOutside n fs (osWriteFile fs dir x data).2 := by
  unfold osWriteFile
  rw [h]
  split
  · next heq => exact Dir.within_agree heq
  · exact Dir.agreeOutside_refl _ _

theorem helm.FetchChart_agree (ext : Ext) (repoURL name version : String) (path : Loc)
    (directory : String) (fs : Dir) (n : String) (rest : Path) (h : path.rel = n :: rest) :
    Dir.agreeOutside n fs (helm.FetchChart ext repoURL name version path directory fs).2 := by
  unfold helm.FetchChart
  split
  · exact Dir.agreeOutside_refl _ _
  · split
    · exact Dir.agreeOutside_refl _ _
    · next chartPath fs1 hdl =>
      have a1 : Dir.agreeOutside n fs fs1 := by
        unfold helm.downloadTo at hdl
        split at hdl
        · cases hdl
        · next file bytes _ =>
          have hw := osWriteFile_agree fs path file bytes n rest h
          split at hdl
          · cases hdl
          · next fs' hwr =>
            injection hdl with hdl
            injection hdl with _ hfs
            rw [hwr] at hw
            rw [← hfs]
            exact hw
      have a2 : Dir.agreeOutside n fs1 (helm.expandFile ext path chartPath name fs1).2 := by
        unfold helm.expandFile
        split
        · exact Dir.agreeOutside_refl _ _
        · dsimp only
          split
          · next heq =>
            rw [h] at heq
            exact Dir.within_agree heq
          · exact Dir.agreeOutside_refl _ _
      split
      · next err fs2 hex =>
        rw [hex] at a2
        exact Dir.agreeOutside_trans a1 a2
      · next fs2 hex =>
        rw [hex] at a2
        have a12 := Dir.agreeOutside_trans a1 a2
        have a3 := osRemove_agree fs2 path chartPath n rest h
        split
        · next err fs3 hrm =>
          rw [hrm] at a3
          exact Dir.agreeOutside_trans a12 a3
        · next fs3 hrm =>
          rw [hrm] at a3
          have a123 := Dir.agreeOutside_trans a12 a3
          have a4 := osRename_agree fs3 path name directory n rest h
          split
          · split
            · next err fs4 hrn =>
              rw [hrn] at a4
              exact Dir.agreeOutside_trans a123 a4
            · next fs4 hrn =>
              rw [hrn] at a4
              exact Dir.agreeOutside_trans a123 a4
          · exact a123

theorem helm.UpdateRequirementsLock_agree (ext : Ext) (dir : Loc) (file : String)
    (req : Option (List Dependency)) (fs : Dir) (n : String) (rest : Path)
    (h : dir.rel = n :: rest) :
    Dir.agreeOutside n fs (helm.UpdateRequirementsLock ext dir file req fs).2 := by
  unfold helm.UpdateRequirementsLock
  split
  · exact Dir.agreeOutside_refl _ _
  · exact osWriteFile_agree fs dir file _ n rest h


theorem chart_vendor.Patch_patched (ext : Ext) (input : String) (directory : Loc) (w : World) :
    (chart_vendor.Patch ext input directory w).2.patched =
      w.patched ++ [(input, directory.text)] := by
  unfold chart_vendor.Patch
  dsimp only
  split
  · rfl
  · split <;> rfl

theorem chart_vendor.Patch_agree (ext : Ext) (input : String) (directory : Loc) (w : World)
    (n : String) (rest : Path) (h : directory.rel = n :: rest) :
    Dir.agreeOutside n w.fs (chart_vendor.Patch ext input directory w).2.fs := by
  unfold chart_vendor.Patch
  dsimp only
  split
  · exact Dir.agreeOutside_refl _ _
  · rw [h]
    split <;> exact Dir.store_agree _ _ _ _

theorem chart_vendor.fetchDependency_agree (ext : Ext) (path : String) (directory : String)
    (dependency : Dependency) (fs : Dir) :
    Dir.agreeOutside directory fs
      (chart_vendor.fetchDependency ext ⟨path, []⟩ directory dependency fs).2 := by
  unfold chart_vendor.fetchDependency
  dsimp only
  have hrel : ((Loc.sub ⟨path, []⟩ directory).sub "charts").rel = directory :: ["charts"] := rfl
  have a1 := osRemoveAll_agree fs ((Loc.sub ⟨path, []⟩ directory).sub "charts")
    dependency.Name directory ["charts"] hrel
  split
  · exact a1
  · have a2 := helm.FetchChart_agree ext dependency.Repository dependency.Name
      dependency.Version ((Loc.sub ⟨path, []⟩ directory).sub "charts") dependency.Name
      (osRemoveAll fs ((Loc.sub ⟨path, []⟩ directory).sub "charts") dependency.Name).2
      directory ["charts"] hrel
    split
    · exact Dir.agreeOutside_trans a1 a2
    · exact Dir.agreeOutside_trans (Dir.agreeOutside_trans a1 a2)
        (helm.UpdateRequirementsLock_agree ext _ _ _ _ directory ["charts", dependency.Name] rfl)

theorem chart_vendor.fetchDependencies_agree (ext : Ext) (path : String) (directory : String)
    (deps : List Dependency) (fs : Dir) :
    Dir.agreeOutside directory fs
      (chart_vendor.fetchDependencies ext ⟨path, []⟩ directory deps fs).2 := by
  induction deps generalizing fs with
  | nil => exact Dir.agreeOutside_refl _ _
  | cons dep rest ih =>
    unfold chart_vendor.fetchDependencies
    exact Dir.agreeOutside_trans (chart_vendor.fetchDependency_agree ext path directory dep fs)
      (ih _)

theorem chart_vendor.lockChart_patched (ext : Ext) (chart : Chart) (path : Loc)
    (directory : String) (w : World) :
    (chart_vendor.lockChart ext chart path directory w).2.patched = w.patched := by
  unfold chart_vendor.lockChart
  dsimp only
  split
  · rfl
  · split <;> rfl

theorem chart_vendor.lockChart_agree (ext : Ext) (chart : Chart) (path : String)
    (directory : String) (w : World) :
    Dir.agreeOutside directory (w.fs.del (directory ++ "-" ++ chart.Version))
      (chart_vendor.lockChart ext chart ⟨path, []⟩ directory w).2.fs := by
  have h0 : (osRemoveAll w.fs ⟨path, []⟩ (directory ++ "-" ++ chart.Version)) =
      (none, w.fs.del (directory ++ "-" ++ chart.Version)) := by
    simp [osRemoveAll, Dir.within]
  unfold chart_vendor.lockChart
  simp only [h0, fatal]
  have a2 : Dir.agreeOutside directory (w.fs.del (directory ++ "-" ++ chart.Version))
      (match chart.Dependencies with
        | some (dep :: deps) =>
          match ext.yamlMarshalDependencies chart.Dependencies with
          | .error err => (some err, w.fs.del (directory ++ "-" ++ chart.Version))
          | .ok requirementdata =>
            match osWriteFile (w.fs.del (directory ++ "-" ++ chart.Version))
                (Loc.sub ⟨path, []⟩ directory) "requirements.yaml"
                ("dependencies:\n" ++ requirementdata) with
            | (some err, fs) => (some err, fs)
            | (none, fs) =>
              chart_vendor.fetchDependencies ext ⟨path, []⟩ directory (dep :: deps) fs
        | _ => ((none : Option Error), w.fs.del (directory ++ "-" ++ chart.Version))).2 := by
    split
    · split
      · exact Dir.agreeOutside_refl _ _
      · next requirementdata _ =>
        have aw := osWriteFile_agree (w.fs.del (directory ++ "-" ++ chart.Version))
          (Loc.sub ⟨path, []⟩ directory) "requirements.yaml"
          ("dependencies:\n" ++ requirementdata) directory [] rfl
        split
        · next err fs hw =>
          rw [hw] at aw
          exact aw
        · next fs hw =>
          rw [hw] at aw
          exact Dir.agreeOutside_trans aw (chart_vendor.fetchDependencies_agree ext path _ _ _)
    · exact Dir.agreeOutside_refl _ _
  split
  · exact a2
  · exact Dir.agreeOutside_trans a2
      (helm.UpdateRequirementsLock_agree ext _ _ _ _ directory [] rfl)

theorem chart_vendor.applyChanges_agree (ext : Ext) (url : String) (target : Loc) (n : String)
    (rest : Path) (h : target.rel = n :: rest) (changes : List String) (w : World) :
    Dir.agreeOutside n w.fs (chart_vendor.applyChanges ext url target changes w).2.fs := by
  induction changes generalizing w with
  | nil => exact Dir.agreeOutside_refl _ _
  | cons c cs ih =>
    unfold chart_vendor.applyChanges
    split
    · exact Dir.agreeOutside_refl _ _
    · next patch _ =>
      have ap := chart_vendor.Patch_agree ext patch target w n rest h
      split
      · next err w' hp =>
        rw [hp] at ap
        exact ap
      · next w' hp =>
        rw [hp] at ap
        exact Dir.agreeOutside_trans ap (ih w')

theorem chart_vendor.applyGerrit_agree (ext : Ext) (target : Loc) (n : String)
    (rest : Path) (h : target.rel = n :: rest) (hosts : List (String × List String))
    (w : World) :
    Dir.agreeOutside n w.fs (chart_vendor.applyGerrit ext target hosts w).2.fs := by
  induction hosts generalizing w with
  | nil => exact Dir.agreeOutside_refl _ _
  | cons hc rest' ih =>
    obtain ⟨host, changes⟩ := hc
    unfold chart_vendor.applyGerrit
    dsimp only
    split
    · exact Dir.agreeOutside_refl _ _
    · have ac := chart_vendor.applyChanges_agree ext ("https://" ++ host) target n rest h
        changes w
      split
      · next err w' hp =>
        rw [hp] at ac
        exact ac
      · next w' hp =>
        rw [hp] at ac
        exact Dir.agreeOutside_trans ac (ih w')

theorem chart_vendor.applyLocal_agree (ext : Ext) (patchesPath target : Loc) (n : String)
    (rest : Path) (h : target.rel = n :: rest) (ps : List (String × String)) (w : World) :
    Dir.agreeOutside n w.fs (chart_vendor.applyLocal ext patchesPath target ps w).2.fs := by
  induction ps generalizing w with
  | nil => exact Dir.agreeOutside_refl _ _
  | cons p ps ih =>
    unfold chart_vendor.applyLocal
    split
    · exact Dir.agreeOutside_refl _ _
    · next patchData _ =>
      have ap := chart_vendor.Patch_agree ext patchData target w n rest h
      split
      · next err w' hp =>
        rw [hp] at ap
        exact ap
      · next w' hp =>
        rw [hp] at ap
        exact Dir.agreeOutside_trans ap (ih w')

theorem chart_vendor.applyPatches_agree (ext : Ext) (chart : Chart) (path : String)
    (directory : String) (w : World) :
    Dir.agreeOutside directory w.fs
      (chart_vendor.applyPatches ext chart ⟨path, []⟩ directory w).2.fs := by
  unfold chart_vendor.applyPatches
  have ag := chart_vendor.applyGerrit_agree ext (Loc.sub ⟨path, []⟩ directory) directory []
    rfl chart.Patches.Gerrit w
  split
  · next err w' hg =>
    rw [hg] at ag
    exact ag
  · next w' hg =>
    rw [hg] at ag
    dsimp only
    split
    · exact Dir.agreeOutside_trans ag
        (chart_vendor.applyLocal_agree ext _ _ directory [] rfl _ w')
    · exact ag

theorem chart_vendor.finishChart_agree (ext : Ext) (chart : Chart) (path : String)
    (directory : String) (w : World) :
    Dir.agreeOutside directory (w.fs.del (directory ++ "-" ++ chart.Version))
      (chart_vendor.finishChart ext chart ⟨path, []⟩ directory w).2.fs := by
  unfold chart_vendor.finishChart
  have al := chart_vendor.lockChart_agree ext chart path directory w
  split
  · next err w' hl =>
    rw [hl] at al
    exact al
  · next w' hl =>
    rw [hl] at al
    exact Dir.agreeOutside_trans al (chart_vendor.applyPatches_agree ext chart path directory w')


/-! ## Rollback -/

/-- C1 fails on the code. The chart `foo` is vendored; the fetch delegate fails
while expanding the new archive, after it has written `Chart.yaml` into
`charts/foo`. The rollback rename is refused because its target exists, `FetchChart`
returns the rename's error, `charts/foo` holds the partial new content and the
backup `charts/foo-1.0` is still there. -/
theorem chart_vendor.FetchChart_rollback_blocked :
    (chart_vendor.delegated expandFailsExt fooChart "charts" fooWorld.fs).1 =
        some (.text "write templates/deployment.yaml: no space left on device") ∧
      (chart_vendor.FetchChart expandFailsExt fooChart "charts" fooWorld).1 =
        some (.link "rename" "charts/foo-1.0" "charts/foo" .EEXIST) ∧
      fooWorld.fs.find "foo" = some (.dir [("Chart.yaml", .file "old")]) ∧
      (chart_vendor.FetchChart expandFailsExt fooChart "charts" fooWorld).2.fs.find "foo" =
        some (.dir [("Chart.yaml", .file "new")]) ∧
      (chart_vendor.FetchChart expandFailsExt fooChart "charts" fooWorld).2.fs.find "foo-1.0" =
        some (.dir [("Chart.yaml", .file "old")]) := by
  refine ⟨by decide, by decide, by decide, by decide, by decide⟩

/-- C2, as the code has it. When the fetch delegate fails and leaves the vacated
slot empty and the backup as it was, `FetchChart` returns the delegate's error, the
target directory is in its state of before the call and no backup is left. When the
delegate succeeds, `FetchChart` goes on without any rollback: whatever the later
steps return is returned, and the backup is gone. -/
theorem chart_vendor.FetchChart_restoration (ext : Ext) (chart : Chart) (path : String)
    (w : World) :
    (∀ err, (chart_vendor.delegated ext chart path w.fs).1 = some err →
        (chart_vendor.delegated ext chart path w.fs).2.find
          (chart_vendor.targetDirectory chart) = none →
        (chart_vendor.delegated ext chart path w.fs).2.find
          (chart_vendor.targetDirectory chart ++ "-" ++ chart.Version) =
            w.fs.find (chart_vendor.targetDirectory chart) →
        w.fs.find (chart_vendor.targetDirectory chart) ≠ none →
        (chart_vendor.FetchChart ext chart path w).1 = some err ∧
          (chart_vendor.FetchChart ext chart path w).2.fs.find
            (chart_vendor.targetDirectory chart) =
              w.fs.find (chart_vendor.targetDirectory chart) ∧
          (chart_vendor.FetchChart ext chart path w).2.fs.find
            (chart_vendor.targetDirectory chart ++ "-" ++ chart.Version) = none) ∧
      ((chart_vendor.delegated ext chart path w.fs).1 = none →
        chart_vendor.FetchChart ext chart path w =
          chart_vendor.finishChart ext chart ⟨path, []⟩ (chart_vendor.targetDirectory chart)
            { w with fs := (chart_vendor.delegated ext chart path w.fs).2 } ∧
        (chart_vendor.FetchChart ext chart path w).2.fs.find
          (chart_vendor.targetDirectory chart ++ "-" ++ chart.Version) = none) := by
  have hne := backup_ne (chart_vendor.targetDirectory chart) chart.Version
  constructor
  · intro err hfail hslot hbackup hexists
    obtain ⟨v, hv⟩ := Option.ne_none_iff_exists'.1 hexists
    rw [hv] at hbackup
    have hr : osRename (chart_vendor.delegated ext chart path w.fs).2 ⟨path, []⟩
        (chart_vendor.targetDirectory chart ++ "-" ++ chart.Version)
        (chart_vendor.targetDirectory chart) =
        (none, (((chart_vendor.delegated ext chart path w.fs).2.del
          (chart_vendor.targetDirectory chart ++ "-" ++ chart.Version)).put
            (chart_vendor.targetDirectory chart) v)) := by
      simp only [osRename, Dir.within, renameIn, hslot, hbackup]
    rw [chart_vendor.FetchChart_eq]
    simp only [hfail, hr, hv]
    refine ⟨trivial, Dir.find_put_self _ _ _, ?_⟩
    rw [Dir.find_put_ne _ _ hne, Dir.find_del_self]
  · intro hok
    have heq : chart_vendor.FetchChart ext chart path w =
        chart_vendor.finishChart ext chart ⟨path, []⟩ (chart_vendor.targetDirectory chart)
          { w with fs := (chart_vendor.delegated ext chart path w.fs).2 } := by
      rw [chart_vendor.FetchChart_eq]
      simp only [hok]
    refine ⟨heq, ?_⟩
    rw [heq]
    have ha := chart_vendor.finishChart_agree ext chart path (chart_vendor.targetDirectory chart)
      { w with fs := (chart_vendor.delegated ext chart path w.fs).2 }
    rw [ha _ hne.symm]
    exact Dir.find_del_self _ _

/-- C2, for the vendored chart `foo` and a chart repository that has no chart. -/
theorem chart_vendor.FetchChart_restoration_witness :
    (chart_vendor.FetchChart noChartExt fooChart "charts" fooWorld).1 =
        some (.text "chart not found") ∧
      (chart_vendor.FetchChart noChartExt fooChart "charts" fooWorld).2.fs.find "foo" =
        fooWorld.fs.find "foo" ∧
      (chart_vendor.FetchChart noChartExt fooChart "charts" fooWorld).2.fs.find "foo-1.0" =
        none :=
  (chart_vendor.FetchChart_restoration noChartExt fooChart "charts" fooWorld).1
    (.text "chart not found") (by decide) (by decide) (by decide) (by decide)

/-- C2 fails on the code. The chart `foo` declares the dependency `missing`; the
chart is fetched, the backup removed, `requirements.yaml` written, and the fetch of
the dependency fails. `FetchChart` returns that error and leaves `charts/foo` with
the new content, not with the content of before the call. -/
theorem chart_vendor.FetchChart_no_rollback_after_fetch :
    (chart_vendor.FetchChart sampleExt
        { fooChart with
          Dependencies := some [⟨"missing", "2.0", "https://charts.example", "", [], false, [], ""⟩] }
        "charts" fooWorld).1 = some (.text "chart \"missing\" not found") ∧
      fooWorld.fs.find "foo" = some (.dir [("Chart.yaml", .file "old")]) ∧
      (chart_vendor.FetchChart sampleExt
        { fooChart with
          Dependencies := some [⟨"missing", "2.0", "https://charts.example", "", [], false, [], ""⟩] }
        "charts" fooWorld).2.fs.find "foo" =
        some (.dir [("requirements.yaml", .file "dependencies:\n- name: dep\n"),
          ("Chart.yaml", .file "new")]) ∧
      (chart_vendor.FetchChart sampleExt
        { fooChart with
          Dependencies := some [⟨"missing", "2.0", "https://charts.example", "", [], false, [], ""⟩] }
        "charts" fooWorld).2.fs.find "foo-1.0" = none := by
  refine ⟨by decide, by decide, by decide, by decide⟩

/-- C10, as the code has it. When the target directory does not exist before the
call, the fetch delegate fails and leaves the backup path as it found it, the
rollback rename fails because the backup does not exist, and `FetchChart` returns
that not-exist error of the rename, not the delegate's error. -/
theorem chart_vendor.FetchChart_first_fetch_masked (ext : Ext) (chart : Chart) (path : String)
    (w : World) (err : Error)
    (habsent : w.fs.find (chart_vendor.targetDirectory chart) = none)
    (hfail : (chart_vendor.delegated ext chart path w.fs).1 = some err)
    (hkeep : (chart_vendor.delegated ext chart path w.fs).2.find
        (chart_vendor.targetDirectory chart ++ "-" ++ chart.Version) =
      (chart_vendor.vacated chart path w.fs).find
        (chart_vendor.targetDirectory chart ++ "-" ++ chart.Version)) :
    chart_vendor.FetchChart ext chart path w =
        (some (.link "rename"
            (path ++ "/" ++ (chart_vendor.targetDirectory chart ++ "-" ++ chart.Version))
            (path ++ "/" ++ chart_vendor.targetDirectory chart) .ENOENT),
          { w with fs := (chart_vendor.delegated ext chart path w.fs).2 }) ∧
      (Error.link "rename"
          (path ++ "/" ++ (chart_vendor.targetDirectory chart ++ "-" ++ chart.Version))
          (path ++ "/" ++ chart_vendor.targetDirectory chart) .ENOENT).isNotExist = true := by
  rw [chart_vendor.vacated_find_backup, habsent] at hkeep
  have hr : osRename (chart_vendor.delegated ext chart path w.fs).2 ⟨path, []⟩
      (chart_vendor.targetDirectory chart ++ "-" ++ chart.Version)
      (chart_vendor.targetDirectory chart) =
      (some (.link "rename"
          (path ++ "/" ++ (chart_vendor.targetDirectory chart ++ "-" ++ chart.Version))
          (path ++ "/" ++ chart_vendor.targetDirectory chart) .ENOENT),
        (chart_vendor.delegated ext chart path w.fs).2) := by
    simp only [osRename, Dir.within, renameIn, hkeep]
    cases (chart_vendor.delegated ext chart path w.fs).2.find
        (chart_vendor.targetDirectory chart) with
    | none => rfl
    | some v => cases v <;> rfl
  refine ⟨?_, rfl⟩
  rw [chart_vendor.FetchChart_eq]
  simp only [hfail, hr]

/-- C10, for the chart `foo` fetched into an empty charts root from a chart
repository that has no chart. -/
theorem chart_vendor.FetchChart_first_fetch_masked_witness :
    chart_vendor.FetchChart noChartExt fooChart "charts" ⟨[], [], []⟩ =
        (some (.link "rename" ("charts" ++ "/" ++ ("foo" ++ "-" ++ "1.0"))
            ("charts" ++ "/" ++ "foo") .ENOENT),
          { (⟨[], [], []⟩ : World) with
            fs := (chart_vendor.delegated noChartExt fooChart "charts" []).2 }) ∧
      (Error.link "rename" ("charts" ++ "/" ++ ("foo" ++ "-" ++ "1.0"))
          ("charts" ++ "/" ++ "foo") .ENOENT).isNotExist = true :=
  chart_vendor.FetchChart_first_fetch_masked noChartExt fooChart "charts" ⟨[], [], []⟩
    (.text "chart not found") (by decide) (by decide) (by decide)

/-- C10 fails on the code. The chart is called `foo-1.0`, has version `1.0` and is
vendored into the directory `foo`, which does not exist. The fetch delegate expands
the archive into `charts/foo-1.0`, the backup name, and fails; the rollback rename
then succeeds and `FetchChart` returns the delegate's error, which is no not-exist
error. -/
theorem chart_vendor.FetchChart_first_fetch_not_masked :
    (⟨[], [], []⟩ : World).fs.find "foo" = none ∧
      (chart_vendor.delegated expandFailsExt
        ⟨"foo-1.0", "1.0", ⟨"https://charts.example"⟩, some "foo", none, ⟨[]⟩⟩ "charts" []).1 =
        some (.text "write templates/deployment.yaml: no space left on device") ∧
      (chart_vendor.FetchChart expandFailsExt
        ⟨"foo-1.0", "1.0", ⟨"https://charts.example"⟩, some "foo", none, ⟨[]⟩⟩ "charts"
        ⟨[], [], []⟩).1 =
        some (.text "write templates/deployment.yaml: no space left on device") ∧
      (Error.text "write templates/deployment.yaml: no space left on device").isNotExist =
        false := by
  refine ⟨by decide, by decide, by decide, by decide⟩


/-! ## Locations below the root -/

theorem Dir.get_cons_dir {fs sub : Dir} {n : String} (rest : Path)
    (h : fs.find n = some (.dir sub)) : fs.get (n :: rest) = sub.get rest := by
  cases rest with
  | nil => simp [Dir.get, h]
  | cons m ms => simp [Dir.get, h]

theorem Dir.get_append_single {fs d : Dir} {p : Path} (n : String)
    (h : fs.get p = some (.dir d)) : fs.get (p ++ [n]) = d.find n := by
  induction p generalizing fs with
  | nil =>
    simp only [Dir.get, Option.some.injEq, Node.dir.injEq] at h
    rw [← h, List.nil_append, Dir.get_single]
  | cons m ms ih =>
    cases hm : fs.find m with
    | none => simp [Dir.get, hm] at h
    | some v =>
      cases v with
      | file data =>
        cases ms with
        | nil => simp [Dir.get, hm] at h
        | cons k ks => simp [Dir.get, hm] at h
      | dir sub =>
        rw [Dir.get_cons_dir ms hm] at h
        rw [List.cons_append, Dir.get_cons_dir _ hm]
        exact ih h

theorem Dir.within_get {fs fs' : Dir} {p : Path} {f : Dir → Except Errno Dir}
    (h : fs.within p f = .ok fs') :
    ∃ d d', fs.get p = some (.dir d) ∧ f d = .ok d' ∧ fs'.get p = some (.dir d') := by
  induction p generalizing fs fs' with
  | nil => exact ⟨fs, fs', rfl, h, rfl⟩
  | cons n rest ih =>
    unfold Dir.within at h
    split at h
    · next sub hsub =>
      split at h
      · next sub' hw =>
        injection h with h
        obtain ⟨d, d', h1, h2, h3⟩ := ih hw
        refine ⟨d, d', ?_, h2, ?_⟩
        · rw [Dir.get_cons_dir rest hsub]
          exact h1
        · rw [← h, Dir.get_cons_dir rest (Dir.find_put_self _ _ _)]
          exact h3
      · cases h
    · cases h
    · cases h

theorem Dir.within_of_get {fs d d' : Dir} {p : Path} {f : Dir → Except Errno Dir}
    (h : fs.get p = some (.dir d)) (hf : f d = .ok d') : ∃ fs', fs.within p f = .ok fs' := by
  induction p generalizing fs with
  | nil =>
    simp only [Dir.get, Option.some.injEq, Node.dir.injEq] at h
    exact ⟨d', by rw [Dir.within, h, hf]⟩
  | cons m ms ih =>
    cases hm : fs.find m with
    | none => simp [Dir.get, hm] at h
    | some v =>
      cases v with
      | file data =>
        cases ms with
        | nil => simp [Dir.get, hm] at h
        | cons k ks => simp [Dir.get, hm] at h
      | dir sub =>
        rw [Dir.get_cons_dir ms hm] at h
        obtain ⟨sub', hsub'⟩ := ih h
        exact ⟨fs.put m (.dir sub'), by simp [Dir.within, hm, hsub']⟩

theorem osWriteFile_ok_get {fs fs' : Dir} {dir : Loc} {file data : String}
    (h : osWriteFile fs dir file data = (none, fs')) :
    fs'.get (dir.rel ++ [file]) = some (.file data) := by
  unfold osWriteFile at h
  split at h
  · next fs'' hw =>
    injection h with _ h
    obtain ⟨d, d', _, h2, h3⟩ := Dir.within_get hw
    rw [← h, Dir.get_append_single file h3]
    unfold writeFileIn at h2
    split at h2
    · cases h2
    · injection h2 with h2
      rw [← h2, Dir.find_put_self]
  · cases h

/-! ## The lock record -/

theorem helm.lockRecord_eq (req : Option (List Dependency)) :
    helm.lockRecord req =
      { Generated := 0,
        Dependencies := some (req.getD []),
        Digest := "sha256:" ++ (sha256 (utf8 (String.mk (jsonArray
          [jsonArray ((req.getD []).map jsonDependency),
           jsonArray ((req.getD []).map jsonDependency)])))).hex } := by
  cases req <;> rfl

theorem helm.UpdateRequirementsLock_written {ext : Ext} {dir : Loc} {file : String}
    {req : Option (List Dependency)} {fs fs' : Dir}
    (h : helm.UpdateRequirementsLock ext dir file req fs = (none, fs')) :
    ∃ ldata, ext.yamlMarshalLock (helm.lockRecord req) = .ok ldata ∧
      fs'.get (dir.rel ++ [file]) = some (.file ldata) := by
  unfold helm.UpdateRequirementsLock at h
  split at h
  · cases h
  · next ldata hy => exact ⟨ldata, hy, osWriteFile_ok_get h⟩

/-- C5. The record `UpdateRequirementsLock` serialises has the zero time as
`Generated`, the dependency list in its order (the empty list for nil) as
`Dependencies`, and as `Digest` the string `sha256:` followed by the hexadecimal
SHA-256 of the JSON array holding the JSON of that list twice; when the call
returns no error the lock file holds the YAML of that record, and it returns no
error whenever the encoder accepts the record and the file can be written. -/
theorem helm.UpdateRequirementsLock_record (ext : Ext) (dir : Loc) (file : String)
    (req : Option (List Dependency)) (fs : Dir) :
    helm.lockRecord req =
        { Generated := 0,
          Dependencies := some (req.getD []),
          Digest := "sha256:" ++ (sha256 (utf8 (String.mk (jsonArray
            [jsonArray ((req.getD []).map jsonDependency),
             jsonArray ((req.getD []).map jsonDependency)])))).hex } ∧
      (∀ fs', helm.UpdateRequirementsLock ext dir file req fs = (none, fs') →
        ∃ ldata, ext.yamlMarshalLock (helm.lockRecord req) = .ok ldata ∧
          fs'.get (dir.rel ++ [file]) = some (.file ldata)) ∧
      (∀ (ldata : String) (d : Dir), ext.yamlMarshalLock (helm.lockRecord req) = .ok ldata →
        fs.get dir.rel = some (.dir d) → (∀ sub, d.find file ≠ some (.dir sub)) →
        (helm.UpdateRequirementsLock ext dir file req fs).1 = none) := by
  refine ⟨helm.lockRecord_eq req, fun fs' h => helm.UpdateRequirementsLock_written h, ?_⟩
  intro ldata d hy hd hfile
  have hw : writeFileIn d file ldata = .ok (d.put file (.file ldata)) := by
    unfold writeFileIn
    split
    · next sub hs => exact absurd hs (hfile sub)
    · rfl
  obtain ⟨fs', hfs'⟩ := Dir.within_of_get (f := fun d => writeFileIn d file ldata) hd hw
  simp only [helm.UpdateRequirementsLock, hy, osWriteFile, hfs']

/-- C6. The bytes `UpdateRequirementsLock` writes depend on the elements of the
dependency list alone: two calls whose lists have the same elements, on any paths
and file systems, write the same bytes and the same digest, and the nil list gives
the record of the empty list. -/
theorem helm.UpdateRequirementsLock_deterministic (ext : Ext) (dir1 dir2 : Loc)
    (file1 file2 : String) (req1 req2 : Option (List Dependency)) (fs1 fs2 fs1' fs2' : Dir)
    (hreq : req1.getD [] = req2.getD [])
    (h1 : helm.UpdateRequirementsLock ext dir1 file1 req1 fs1 = (none, fs1'))
    (h2 : helm.UpdateRequirementsLock ext dir2 file2 req2 fs2 = (none, fs2')) :
    (∃ ldata, fs1'.get (dir1.rel ++ [file1]) = some (.file ldata) ∧
        fs2'.get (dir2.rel ++ [file2]) = some (.file ldata)) ∧
      (helm.lockRecord req1).Digest = (helm.lockRecord req2).Digest ∧
      helm.lockRecord none = helm.lockRecord (some []) := by
  have hrec : helm.lockRecord req1 = helm.lockRecord req2 := by
    rw [helm.lockRecord_eq req1, helm.lockRecord_eq req2, hreq]
  obtain ⟨l1, hy1, hg1⟩ := helm.UpdateRequirementsLock_written h1
  obtain ⟨l2, hy2, hg2⟩ := helm.UpdateRequirementsLock_written h2
  rw [hrec, hy2] at hy1
  injection hy1 with hy1
  refine ⟨⟨l1, hg1, ?_⟩, by rw [hrec], rfl⟩
  rw [hg2, hy1]

/-- C6, for the nil list written to `charts/foo/requirements.lock` and the empty
list written to `charts/bar/requirements.lock`. -/
theorem helm.UpdateRequirementsLock_deterministic_witness :
    (∃ ldata,
        (helm.UpdateRequirementsLock sampleExt ⟨"charts/foo", ["foo"]⟩ "requirements.lock" none
          [("foo", .dir []), ("bar", .dir [])]).2.get (["foo"] ++ ["requirements.lock"]) =
            some (.file ldata) ∧
        (helm.UpdateRequirementsLock sampleExt ⟨"charts/bar", ["bar"]⟩ "requirements.lock"
          (some []) [("bar", .dir [])]).2.get (["bar"] ++ ["requirements.lock"]) =
            some (.file ldata)) ∧
      (helm.lockRecord none).Digest = (helm.lockRecord (some [])).Digest ∧
      helm.lockRecord none = helm.lockRecord (some []) :=
  helm.UpdateRequirementsLock_deterministic sampleExt ⟨"charts/foo", ["foo"]⟩
    ⟨"charts/bar", ["bar"]⟩ "requirements.lock" "requirements.lock" none (some [])
    [("foo", .dir []), ("bar", .dir [])] [("bar", .dir [])] _ _ rfl
    (Prod.ext (by decide) rfl) (Prod.ext (by decide) rfl)


/-! ## The order of the patches -/

theorem Dir.get_agree {n m : String} {a b : Dir} (h : Dir.agreeOutside n a b) (hm : m ≠ n)
    (rest : Path) : b.get (m :: rest) = a.get (m :: rest) := by
  unfold Dir.get
  rw [h m hm]

theorem chars_append_lt (p a b : List Char) : p ++ a < p ++ b ↔ a < b := by
  induction p with
  | nil => simp
  | cons c p ih =>
    simp only [List.cons_append]
    exact (List.Lex.cons_iff).trans ih

theorem chars_append_le (p a b : List Char) : p ++ a ≤ p ++ b ↔ a ≤ b := by
  rw [← not_lt, ← not_lt, chars_append_lt]

theorem chart_vendor.sortStrings_glob (fs : Dir) (chart : Chart) (text : String) :
    chart_vendor.sortStrings (chart_vendor.globPatches fs ⟨text, ["patches", chart.Name]⟩) =
      (chart_vendor.localPatchNames fs chart).map (fun n => (text ++ "/" ++ n, n)) := by
  unfold chart_vendor.sortStrings chart_vendor.globPatches chart_vendor.localPatchNames
  dsimp only
  split
  · next d _ =>
    symm
    apply List.map_insertionSort
    intro a _ b _
    simp only [String.data_append]
    exact (chars_append_le _ _ _).symm
  · rfl

theorem chart_vendor.applyChanges_patched (ext : Ext) (host : String) (target : Loc)
    (changes : List String) (w : World) :
    ∃ k, (chart_vendor.applyChanges ext ("https://" ++ host) target changes w).2.patched =
        w.patched ++ (changes.map (fun c =>
          (chart_vendor.changeText ext host c, target.text))).take k ∧
      ((chart_vendor.applyChanges ext ("https://" ++ host) target changes w).1 = none →
        (chart_vendor.applyChanges ext ("https://" ++ host) target changes w).2.patched =
          w.patched ++ changes.map (fun c =>
            (chart_vendor.changeText ext host c, target.text))) := by
  induction changes generalizing w with
  | nil => exact ⟨0, by simp [chart_vendor.applyChanges], by simp [chart_vendor.applyChanges]⟩
  | cons c cs ih =>
    unfold chart_vendor.applyChanges
    split
    · exact ⟨0, by simp, by simp⟩
    · next patch hget =>
      have htext : chart_vendor.changeText ext host c = patch := by
        simp [chart_vendor.changeText, hget]
      have hp := chart_vendor.Patch_patched ext patch target w
      split
      · next err w' hpatch =>
        rw [hpatch] at hp
        refine ⟨1, ?_, by simp⟩
        show w'.patched = _
        rw [show w'.patched = _ from hp]
        simp [htext]
      · next w' hpatch =>
        rw [hpatch] at hp
        have hp' : w'.patched = w.patched ++ [(patch, target.text)] := hp
        obtain ⟨k, hk, hall⟩ := ih w'
        refine ⟨k + 1, ?_, ?_⟩
        · rw [hk, hp']
          simp [htext]
        · intro hnone
          rw [hall hnone, hp']
          simp [htext]

theorem chart_vendor.applyLocal_patched (ext : Ext) (patchesPath target : Loc) (fs0 : Dir)
    (n m : String) (rest : Path) (ht : target.rel = [n]) (hp : patchesPath.rel = m :: rest)
    (hne : m ≠ n) (ps : List (String × String)) (w : World)
    (hagree : Dir.agreeOutside n fs0 w.fs) :
    ∃ k, (chart_vendor.applyLocal ext patchesPath target ps w).2.patched =
        w.patched ++ (ps.map (fun p =>
          (chart_vendor.fileText fs0 (patchesPath.rel ++ [p.2]), target.text))).take k ∧
      ((chart_vendor.applyLocal ext patchesPath target ps w).1 = none →
        (chart_vendor.applyLocal ext patchesPath target ps w).2.patched =
          w.patched ++ ps.map (fun p =>
            (chart_vendor.fileText fs0 (patchesPath.rel ++ [p.2]), target.text))) := by
  induction ps generalizing w with
  | nil => exact ⟨0, by simp [chart_vendor.applyLocal], by simp [chart_vendor.applyLocal]⟩
  | cons p ps ih =>
    unfold chart_vendor.applyLocal
    split
    · exact ⟨0, by simp, by simp⟩
    · next patchData hread =>
      have htext : chart_vendor.fileText fs0 (patchesPath.rel ++ [p.2]) = patchData := by
        unfold osReadFile at hread
        unfold chart_vendor.fileText
        rw [hp, List.cons_append] at hread ⊢
        rw [Dir.get_agree hagree hne] at hread
        split at hread
        · next data hdata =>
          injection hread with hread
          rw [hdata, hread]
        · cases hread
        · cases hread
      have hpat := chart_vendor.Patch_patched ext patchData target w
      have hag := chart_vendor.Patch_agree ext patchData target w n [] ht
      split
      · next err w' hpatch =>
        rw [hpatch] at hpat
        refine ⟨1, ?_, by simp⟩
        show w'.patched = _
        rw [show w'.patched = _ from hpat]
        simp [htext]
      · next w' hpatch =>
        rw [hpatch] at hpat hag
        have hpat' : w'.patched = w.patched ++ [(patchData, target.text)] := hpat
        obtain ⟨k, hk, hall⟩ := ih w' (Dir.agreeOutside_trans hagree hag)
        refine ⟨k + 1, ?_, ?_⟩
        · rw [hk, hpat']
          simp [htext]
        · intro hnone
          rw [hall hnone, hpat']
          simp [htext]

theorem chart_vendor.applyPatches_patched (ext : Ext) (chart : Chart) (path : String)
    (directory : String) (w : World) (host : String) (changes : List String)
    (hG : chart.Patches.Gerrit = [(host, changes)])
    (hd : chart_vendor.targetDirectory chart = directory) (hdir : directory ≠ "patches") :
    ∃ k, (chart_vendor.applyPatches ext chart ⟨path, []⟩ directory w).2.patched =
        w.patched ++ (chart_vendor.patchSequence ext chart path w.fs host changes).take k ∧
      ((chart_vendor.applyPatches ext chart ⟨path, []⟩ directory w).1 = none →
        (chart_vendor.applyPatches ext chart ⟨path, []⟩ directory w).2.patched =
          w.patched ++ chart_vendor.patchSequence ext chart path w.fs host changes) := by
  unfold chart_vendor.applyPatches chart_vendor.patchSequence
  rw [hG, hd]
  simp only [chart_vendor.applyGerrit]
  split
  · next err w' hg =>
    split at hg
    · injection hg with _ hw
      exact ⟨0, by simp [← hw], by simp⟩
    · obtain ⟨k, hk, _⟩ := chart_vendor.applyChanges_patched ext host
        (Loc.sub ⟨path, []⟩ directory) changes w
      split at hg
      · next err' w'' hc =>
        injection hg with _ hw
        rw [hc] at hk
        refine ⟨min k changes.length, ?_, by simp⟩
        rw [← hw, hk, List.take_append_eq_append_take]
        simp [Loc.sub, List.take_take, Nat.min_comm]
      · cases hg
  · next w' hg =>
    split at hg
    · cases hg
    · obtain ⟨_, _, hall⟩ := chart_vendor.applyChanges_patched ext host
        (Loc.sub ⟨path, []⟩ directory) changes w
      have hagc := chart_vendor.applyChanges_agree ext ("https://" ++ host)
        (Loc.sub ⟨path, []⟩ directory) directory [] rfl changes w
      split at hg
      · cases hg
      · next w'' hc =>
        injection hg with _ hw
        rw [hc] at hall hagc
        have hpat : w'.patched = w.patched ++ changes.map (fun c =>
            (chart_vendor.changeText ext host c, path ++ "/" ++ directory)) := by
          rw [← hw]
          exact hall rfl
        have hag : Dir.agreeOutside directory w.fs w'.fs := by
          rw [← hw]
          exact hagc
        have hget : ∀ rest, w'.fs.get ("patches" :: rest) = w.fs.get ("patches" :: rest) :=
          fun rest => Dir.get_agree hag (Ne.symm hdir) rest
        have hnames : chart_vendor.localPatchNames w'.fs chart =
            chart_vendor.localPatchNames w.fs chart := by
          unfold chart_vendor.localPatchNames
          rw [hget]
        have hsort := chart_vendor.sortStrings_glob w'.fs chart (path ++ "/" ++ "patches")
        obtain ⟨k, hk, hallL⟩ := chart_vendor.applyLocal_patched ext
          ((Loc.sub ⟨path, []⟩ "patches").sub chart.Name) (Loc.sub ⟨path, []⟩ directory) w.fs
          directory "patches" [chart.Name] rfl rfl (Ne.symm hdir)
          (chart_vendor.sortStrings (chart_vendor.globPatches w'.fs
            ((Loc.sub ⟨path, []⟩ "patches").sub chart.Name))) w' hag
        have hmap : (chart_vendor.sortStrings (chart_vendor.globPatches w'.fs
              ((Loc.sub ⟨path, []⟩ "patches").sub chart.Name))).map (fun p =>
              (chart_vendor.fileText w.fs
                (((Loc.sub ⟨path, []⟩ "patches").sub chart.Name).rel ++ [p.2]),
                (Loc.sub ⟨path, []⟩ directory).text)) =
            (chart_vendor.localPatchNames w.fs chart).map (fun n =>
              (chart_vendor.fileText w.fs ["patches", chart.Name, n],
                path ++ "/" ++ directory)) := by
          have hloc : (Loc.sub ⟨path, []⟩ "patches").sub chart.Name =
              ⟨path ++ "/" ++ "patches" ++ "/" ++ chart.Name, ["patches", chart.Name]⟩ := rfl
          rw [hloc]
          have hsort' := chart_vendor.sortStrings_glob w'.fs chart
            (path ++ "/" ++ "patches" ++ "/" ++ chart.Name)
          rw [hsort', hnames, List.map_map]
          rfl
        rw [hmap] at hk hallL
        split
        · refine ⟨changes.length + k, ?_, ?_⟩
          · rw [hk, hpat, List.take_append_eq_append_take]
            simp [List.append_assoc]
          · intro hnone
            rw [hallL hnone, hpat, List.append_assoc]
        · next hnone =>
          have hnone' : w.fs.get ["patches", chart.Name] = none := by
            rw [← hget]
            exact hnone
          have hempty : chart_vendor.localPatchNames w.fs chart = [] := by
            simp [chart_vendor.localPatchNames, hnone']
          refine ⟨changes.length, ?_, ?_⟩
          · rw [hpat, hempty]
            simp
          · intro _
            rw [hpat, hempty]
            simp


/-- C4, as the code has it. For a chart with one review-system host, vendored into
a directory other than `patches`: once fetch and lock have succeeded, the `Patch`
invocations `FetchChart` makes are an initial part of the sequence "patches of the
changes in declared order, then the local `*.patch` files in ascending lexical
order of their names, all against `path/directory`", and they are the whole
sequence when `FetchChart` returns no error. -/
theorem chart_vendor.FetchChart_patch_order (ext : Ext) (chart : Chart) (path : String)
    (w wl : World) (host : String) (changes : List String)
    (hG : chart.Patches.Gerrit = [(host, changes)])
    (hdir : chart_vendor.targetDirectory chart ≠ "patches")
    (hfetch : (chart_vendor.delegated ext chart path w.fs).1 = none)
    (hlock : chart_vendor.lockChart ext chart ⟨path, []⟩ (chart_vendor.targetDirectory chart)
      { w with fs := (chart_vendor.delegated ext chart path w.fs).2 } = (none, wl)) :
    ∃ k, (chart_vendor.FetchChart ext chart path w).2.patched =
        w.patched ++ (chart_vendor.patchSequence ext chart path wl.fs host changes).take k ∧
      ((chart_vendor.FetchChart ext chart path w).1 = none →
        (chart_vendor.FetchChart ext chart path w).2.patched =
          w.patched ++ chart_vendor.patchSequence ext chart path wl.fs host changes) := by
  have heq : chart_vendor.FetchChart ext chart path w =
      chart_vendor.applyPatches ext chart ⟨path, []⟩ (chart_vendor.targetDirectory chart) wl := by
    rw [chart_vendor.FetchChart_eq]
    simp only [hfetch, chart_vendor.finishChart, hlock]
  have hpat : wl.patched = w.patched := by
    have h := chart_vendor.lockChart_patched ext chart ⟨path, []⟩
      (chart_vendor.targetDirectory chart)
      { w with fs := (chart_vendor.delegated ext chart path w.fs).2 }
    rw [hlock] at h
    exact h
  rw [heq, ← hpat]
  exact chart_vendor.applyPatches_patched ext chart path _ wl host changes hG rfl hdir

/-- C4, for the chart `foo` with the changes `A`, `B` and the local files `b.patch`,
`a.patch`. -/
theorem chart_vendor.FetchChart_patch_order_witness :
    ∃ k, (chart_vendor.FetchChart sampleExt reviewedChart "charts" patchesWorld).2.patched =
        patchesWorld.patched ++ (chart_vendor.patchSequence sampleExt reviewedChart "charts"
          (chart_vendor.lockChart sampleExt reviewedChart ⟨"charts", []⟩
            (chart_vendor.targetDirectory reviewedChart)
            { patchesWorld with
              fs := (chart_vendor.delegated sampleExt reviewedChart "charts"
                patchesWorld.fs).2 }).2.fs
          "review.example" ["A", "B"]).take k ∧
      ((chart_vendor.FetchChart sampleExt reviewedChart "charts" patchesWorld).1 = none →
        (chart_vendor.FetchChart sampleExt reviewedChart "charts" patchesWorld).2.patched =
          patchesWorld.patched ++ chart_vendor.patchSequence sampleExt reviewedChart "charts"
            (chart_vendor.lockChart sampleExt reviewedChart ⟨"charts", []⟩
              (chart_vendor.targetDirectory reviewedChart)
              { patchesWorld with
                fs := (chart_vendor.delegated sampleExt reviewedChart "charts"
                  patchesWorld.fs).2 }).2.fs
            "review.example" ["A", "B"]) :=
  chart_vendor.FetchChart_patch_order sampleExt reviewedChart "charts" patchesWorld _
    "review.example" ["A", "B"] rfl (by decide) (by decide) (Prod.ext (by decide) rfl)

/-- C4 fails on the code. The chart `foo` has the changes `A`, `B` and the local
files `b.patch`, `a.patch`; fetch and lock succeed and the `patch` process rejects
the patch of `A`. `Patch` is invoked once, for `A`, and never for `B`, `a.patch` or
`b.patch`; with a `patch` process that accepts, the four are invoked in that
order. -/
theorem chart_vendor.FetchChart_patch_order_cut_short :
    (chart_vendor.delegated patchRejectsExt reviewedChart "charts" patchesWorld.fs).1 = none ∧
      (chart_vendor.lockChart patchRejectsExt reviewedChart ⟨"charts", []⟩ "foo"
        { patchesWorld with
          fs := (chart_vendor.delegated patchRejectsExt reviewedChart "charts"
            patchesWorld.fs).2 }).1 = none ∧
      (chart_vendor.FetchChart patchRejectsExt reviewedChart "charts" patchesWorld).2.patched =
        [("a/foo/values.yaml\nA", "charts/foo")] ∧
      (chart_vendor.FetchChart sampleExt reviewedChart "charts" patchesWorld).2.patched =
        [("a/foo/values.yaml\nA", "charts/foo"), ("a/foo/values.yaml\nB", "charts/foo"),
         ("a/foo/values.yaml\n+a", "charts/foo"), ("a/foo/values.yaml\n+b", "charts/foo")] := by
  refine ⟨by decide, by decide, by decide, by decide⟩


/-! ## The digest -/

theorem hexDigit_mod (n : Nat) : hexDigit (n % 16) = hexDigit n := by
  simp [hexDigit]


/-! ## The JSON of a changed version -/

theorem unhex_hexDigit_fin : ∀ i : Fin 16, unhex (hexDigit i.val) = i.val := by decide

theorem unhex_hexDigit (n : Nat) : unhex (hexDigit n) = n % 16 := by
  have h := unhex_hexDigit_fin ⟨n % 16, Nat.mod_lt _ (by decide)⟩
  simp only [hexDigit, Nat.mod_mod] at h ⊢
  exact h

theorem escaped_small {c : Char} (h : c.toNat < 32 ∨ c = '<' ∨ c = '>' ∨ c = '&') :
    c.toNat < 256 := by
  rcases h with h | h | h | h
  · omega
  · rw [h]; decide
  · rw [h]; decide
  · rw [h]; decide

theorem jsonUnescape_two (k : Char) (x : List Char) (c : Char)
    (h : (if k = '"' then some ('"', x)
        else if k = '\\' then some ('\\', x)
        else if k = 'b' then some ('\x08', x)
        else if k = 'f' then some ('\x0c', x)
        else if k = 'n' then some ('\n', x)
        else if k = 'r' then some ('\r', x)
        else if k = 't' then some ('\t', x)
        else none) = some (c, x)) :
    jsonUnescape ('\\' :: k :: x) = some (c, x) := by
  rw [← h]
  simp only [jsonUnescape, if_true]
  repeat' split
  all_goals first | rfl | simp_all

theorem jsonUnescape_escape (c : Char) (x : List Char) :
    jsonUnescape (jsonEscape c ++ x) = some (c, x) := by
  unfold jsonEscape
  by_cases h1 : c = '"'
  · rw [if_pos h1, h1]
    exact jsonUnescape_two _ _ _ (by simp)
  rw [if_neg h1]
  by_cases h2 : c = '\\'
  · rw [if_pos h2, h2]
    exact jsonUnescape_two _ _ _ (by simp)
  rw [if_neg h2]
  by_cases h3 : c = '\x08'
  · rw [if_pos h3, h3]
    exact jsonUnescape_two _ _ _ (by simp)
  rw [if_neg h3]
  by_cases h4 : c = '\x0c'
  · rw [if_pos h4, h4]
    exact jsonUnescape_two _ _ _ (by simp)
  rw [if_neg h4]
  by_cases h5 : c = '\n'
  · rw [if_pos h5, h5]
    exact jsonUnescape_two _ _ _ (by simp)
  rw [if_neg h5]
  by_cases h6 : c = '\r'
  · rw [if_pos h6, h6]
    exact jsonUnescape_two _ _ _ (by simp)
  rw [if_neg h6]
  by_cases h7 : c = '\t'
  · rw [if_pos h7, h7]
    exact jsonUnescape_two _ _ _ (by simp)
  rw [if_neg h7]
  by_cases h8 : c.toNat < 32 ∨ c = '<' ∨ c = '>' ∨ c = '&'
  · rw [if_pos h8]
    have hs := escaped_small h8
    have hc : Char.ofNat (16 * unhex (hexDigit (c.toNat / 16)) + unhex (hexDigit c.toNat)) = c := by
      rw [unhex_hexDigit, unhex_hexDigit]
      have : 16 * (c.toNat / 16 % 16) + c.toNat % 16 = c.toNat := by omega
      rw [this]
      exact Char.ofNat_toNat c
    simp [jsonUnescape, hc]
  rw [if_neg h8]
  by_cases h9 : c = '\u2028'
  · rw [if_pos h9, h9]
    simp [jsonUnescape]
  rw [if_neg h9]
  by_cases h10 : c = '\u2029'
  · rw [if_pos h10, h10]
    simp [jsonUnescape]
  rw [if_neg h10]
  simp only [jsonUnescape, List.cons_append, List.nil_append, if_neg h2]

theorem escape_flatMap_inj (l l' : List Char)
    (h : l.flatMap jsonEscape = l'.flatMap jsonEscape) : l = l' := by
  induction l generalizing l' with
  | nil =>
    cases l' with
    | nil => rfl
    | cons c' t' =>
      have h' := congrArg jsonUnescape h
      rw [List.flatMap_cons, jsonUnescape_escape] at h'
      simp [jsonUnescape] at h'
  | cons c t ih =>
    cases l' with
    | nil =>
      have h' := congrArg jsonUnescape h
      rw [List.flatMap_cons, jsonUnescape_escape] at h'
      simp [jsonUnescape] at h'
    | cons c' t' =>
      have h' := congrArg jsonUnescape h
      rw [List.flatMap_cons, List.flatMap_cons, jsonUnescape_escape, jsonUnescape_escape] at h'
      simp only [Option.some.injEq, Prod.mk.injEq] at h'
      rw [h'.1, ih t' h'.2]

theorem jsonString_inj {a b : String} (h : jsonString a = jsonString b) : a = b := by
  unfold jsonString at h
  have h1 := List.append_cancel_right (List.cons.inj h).2
  have h2 := escape_flatMap_inj _ _ h1
  exact String.ext h2

theorem commaSep_cons (y : List Char) (ys : List (List Char)) :
    commaSep (y :: ys) = y ++ ys.flatMap (fun z => ',' :: z) := by
  induction ys generalizing y with
  | nil => simp [commaSep]
  | cons z zs ih =>
    rw [commaSep, ih, List.flatMap_cons]
    simp

theorem commaSep_split (xs : List (List Char)) (y : List Char) (ys : List (List Char)) :
    commaSep (xs ++ y :: ys) =
      xs.flatMap (fun z => z ++ [',']) ++ (y ++ ys.flatMap (fun z => ',' :: z)) := by
  induction xs with
  | nil => simp [commaSep_cons]
  | cons x xs ih =>
    cases hxs : xs ++ y :: ys with
    | nil => simp at hxs
    | cons a as =>
      rw [List.cons_append, hxs, commaSep, ← hxs, ih, List.flatMap_cons]
      simp

theorem jsonDependency_version {d : Dependency} {v : String}
    (h : jsonDependency { d with Version := v } = jsonDependency d) : v = d.Version := by
  unfold jsonDependency at h
  simp only [List.append_assoc] at h
  have h1 := List.append_cancel_left (List.cons.inj h).2
  have h2 := List.append_cancel_left h1
  have h3 := List.append_cancel_right h2
  by_cases hv : v = ""
  · by_cases hd : d.Version = ""
    · rw [hv, hd]
    · rw [if_pos hv, if_neg hd] at h3
      simp [jsonMember] at h3
  · by_cases hd : d.Version = ""
    · rw [if_neg hv, if_pos hd] at h3
      simp [jsonMember] at h3
    · rw [if_neg hv, if_neg hd] at h3
      unfold jsonMember at h3
      exact jsonString_inj (List.cons.inj (List.append_cancel_left (List.cons.inj h3).2)).2

theorem helm.lockData_changed (deps deps' : List Dependency) (h : VersionChanged deps deps') :
    helm.lockData deps' ≠ helm.lockData deps := by
  obtain ⟨pre, d, post, v, hv, hdeps, hdeps'⟩ := h
  intro heq
  apply hv
  apply jsonDependency_version
  unfold helm.lockData jsonMarshalPair at heq
  have h0 : jsonArray [jsonDependencies (some deps'), jsonDependencies (some deps')] =
      jsonArray [jsonDependencies (some deps), jsonDependencies (some deps)] :=
    congrArg String.data heq
  unfold jsonArray at h0
  simp only [commaSep, jsonDependencies] at h0
  have h1 := List.append_cancel_right (List.cons.inj h0).2
  have hlen := congrArg List.length h1
  simp only [List.length_append, List.length_cons] at hlen
  have h2 := (List.append_inj h1 (by omega)).1
  unfold jsonArray at h2
  have h3 := List.append_cancel_right (List.cons.inj h2).2
  rw [hdeps, hdeps', List.map_append, List.map_append, List.map_cons, List.map_cons,
    commaSep_split, commaSep_split] at h3
  exact List.append_cancel_right (List.append_cancel_left h3)


/-! ## Digests and hash values -/

theorem hexDigit_inj_fin : ∀ i j : Fin 16, hexDigit i.val = hexDigit j.val → i = j := by
  decide

theorem hexDigit_inj {a b : Nat} (h : hexDigit a = hexDigit b) : a % 16 = b % 16 := by
  rw [← hexDigit_mod a, ← hexDigit_mod b] at h
  have := hexDigit_inj_fin ⟨a % 16, Nat.mod_lt _ (by decide)⟩ ⟨b % 16, Nat.mod_lt _ (by decide)⟩ h
  exact Fin.mk.inj this

theorem hexWord_inj {a b : Nat} (ha : a < 4294967296) (hb : b < 4294967296)
    (h : hexWord a = hexWord b) : a = b := by
  unfold hexWord at h
  simp only [List.cons.injEq, and_true] at h
  obtain ⟨h1, h2, h3, h4, h5, h6, h7, h8⟩ := h
  have e1 := hexDigit_inj h1
  have e2 := hexDigit_inj h2
  have e3 := hexDigit_inj h3
  have e4 := hexDigit_inj h4
  have e5 := hexDigit_inj h5
  have e6 := hexDigit_inj h6
  have e7 := hexDigit_inj h7
  have e8 := hexDigit_inj h8
  omega

theorem Sha256State.hex_inj {s t : Sha256State} (hs : s.Reduced) (ht : t.Reduced)
    (h : s.hex = t.hex) : s = t := by
  unfold Sha256State.hex at h
  have h0 := congrArg String.data h
  simp only at h0
  obtain ⟨sa, sb, sc, sd, se, sf, sg, sh⟩ := hs
  obtain ⟨ta, tb, tc, td, te, tf, tg, th⟩ := ht
  unfold w32 at sa sb sc sd se sf sg sh ta tb tc td te tf tg th
  have len : ∀ a b : Nat, (hexWord a).length = (hexWord b).length := fun _ _ => rfl
  have h7 := List.append_inj' h0 (len _ _)
  have h6 := List.append_inj' h7.1 (len _ _)
  have h5 := List.append_inj' h6.1 (len _ _)
  have h4 := List.append_inj' h5.1 (len _ _)
  have h3 := List.append_inj' h4.1 (len _ _)
  have h2 := List.append_inj' h3.1 (len _ _)
  have h1 := List.append_inj' h2.1 (len _ _)
  cases s
  cases t
  simp only [Sha256State.mk.injEq]
  exact ⟨hexWord_inj sa ta h1.1, hexWord_inj sb tb h1.2, hexWord_inj sc tc h2.2,
    hexWord_inj sd td h3.2, hexWord_inj se te h4.2, hexWord_inj sf tf h5.2,
    hexWord_inj sg tg h6.2, hexWord_inj sh th h7.2⟩

theorem sha256Block_reduced (s : Sha256State) (block : List Nat) :
    (sha256Block s block).Reduced := by
  have hpos : 0 < w32 := by unfold w32; omega
  exact ⟨Nat.mod_lt _ hpos, Nat.mod_lt _ hpos, Nat.mod_lt _ hpos, Nat.mod_lt _ hpos,
    Nat.mod_lt _ hpos, Nat.mod_lt _ hpos, Nat.mod_lt _ hpos, Nat.mod_lt _ hpos⟩

theorem sha256_foldl_reduced (bs : List (List Nat)) (s : Sha256State) (hs : s.Reduced) :
    (bs.foldl sha256Block s).Reduced := by
  induction bs generalizing s with
  | nil => exact hs
  | cons b bs ih =>
    rw [List.foldl_cons]
    exact ih (sha256Block s b) (sha256Block_reduced s b)

theorem sha256_reduced (msg : List Nat) : (sha256 msg).Reduced := by
  unfold sha256
  exact sha256_foldl_reduced _ _ (by simp [Sha256State.Reduced, sha256Init, w32])

theorem string_append_cancel_left {p a b : String} (h : p ++ a = p ++ b) : a = b := by
  have h' := congrArg String.data h
  simp only [String.data_append] at h'
  exact String.ext (List.append_cancel_left h')

/-- C7. When the version of one dependency of a list is changed to a different
string, the JSON text that is hashed changes, and the digest written for the new
list differs from the digest written for the old one, the two texts not being a
collision of SHA-256. -/
theorem helm.lockDigest_sensitivity (deps deps' : List Dependency)
    (h : VersionChanged deps deps')
    (hfree : ¬ helm.Collision (helm.lockData deps') (helm.lockData deps)) :
    deps ≠ [] ∧ helm.lockData deps' ≠ helm.lockData deps ∧
      helm.lockDigest deps' ≠ helm.lockDigest deps := by
  have hdata := helm.lockData_changed deps deps' h
  refine ⟨?_, hdata, ?_⟩
  · obtain ⟨pre, d, post, v, _, hdeps, _⟩ := h
    rw [hdeps]
    simp
  · intro hd
    apply hfree
    refine ⟨hdata, ?_⟩
    have hhex : (sha256 (utf8 (helm.lockData deps'))).hex =
        (sha256 (utf8 (helm.lockData deps))).hex := string_append_cancel_left hd
    exact Sha256State.hex_inj (sha256_reduced _) (sha256_reduced _) hhex

/-- C7, for the dependency `dep` moved from version `1.0` to `1.1`: the hash values
of the two texts are computed and differ, and so do the two digests, which are the
ones `sha256sum` gives for the two texts. -/
theorem helm.lockDigest_sensitivity_witness :
    ([(⟨"dep", "1.0", "https://charts.example", "", [], false, [], ""⟩ : Dependency)] ≠ [] ∧
      helm.lockData [⟨"dep", "1.1", "https://charts.example", "", [], false, [], ""⟩] ≠
        helm.lockData [⟨"dep", "1.0", "https://charts.example", "", [], false, [], ""⟩] ∧
      helm.lockDigest [⟨"dep", "1.1", "https://charts.example", "", [], false, [], ""⟩] ≠
        helm.lockDigest [⟨"dep", "1.0", "https://charts.example", "", [], false, [], ""⟩]) ∧
      helm.lockDigest [⟨"dep", "1.0", "https://charts.example", "", [], false, [], ""⟩] =
        "sha256:93d124d70e1242083258907561d1236102135259a8f74aee6907ac33d59078fd" ∧
      helm.lockDigest [⟨"dep", "1.1", "https://charts.example", "", [], false, [], ""⟩] =
        "sha256:d5fb1453999f19a55987a947c93b170a38a0130649a5b756f6b75d06245b2f53" :=
  ⟨helm.lockDigest_sensitivity
      [⟨"dep", "1.0", "https://charts.example", "", [], false, [], ""⟩]
      [⟨"dep", "1.1", "https://charts.example", "", [], false, [], ""⟩]
      ⟨[], ⟨"dep", "1.0", "https://charts.example", "", [], false, [], ""⟩, [], "1.1",
        by decide, rfl, rfl⟩
      (fun hc => absurd hc.2 (by
        set_option maxRecDepth 100000 in
        decide)),
    by
      set_option maxRecDepth 100000 in
      decide,
    by
      set_option maxRecDepth 100000 in
      decide⟩

end ChartVendor
